import Mathlib

/-!
# toj_file_service: upload / commit / download handlers over a filesystem

A shallow embedding of `src/main.go`.  Go strings are lists of characters,
file contents are lists of bytes, and the filesystem (the only shared state of
the service) is a finite map from cleaned relative paths to nodes.  Every
handler is a pure function from the filesystem before the request to a
response and the filesystem after it.  The results of the operating-system
calls that may fail for reasons outside the filesystem map (permissions, a
full disk, an I/O error) are supplied per request by a `Faults` record.
-/

set_option autoImplicit false

namespace FileService

/-! ## Strings, bytes, paths -/

/-- A Go string, as its list of characters. -/
abbrev Str := List Char

/-- File contents. -/
abbrev Bytes := List (Fin 256)

deriving instance DecidableEq for Except

/-- Constants of `main.go`. -/
def uploadDir : Str := "files/upload".toList
def avatarDir : Str := "files/avatar".toList
def answerDir : Str := "files/answer".toList
def testDir : Str := "files/test".toList
def pngExt : Str := ".png".toList
def txtExt : Str := ".txt".toList

/-! ### `path.Base`, `filepath.Ext`, `filepath.Clean`, `filepath.Join` -/

/-- Strips the trailing slashes of a reversed string. -/
def dropSlashes : Str → Str
  | [] => []
  | c :: cs => if c = '/' then dropSlashes cs else c :: cs

/-- Longest prefix without a slash. -/
def untilSlash : Str → Str
  | [] => []
  | c :: cs => if c = '/' then [] else c :: untilSlash cs

/-- Go `path.Base`: the last element of the path; trailing slashes are removed
before extracting it; `"."` for the empty path, `"/"` for a path of slashes. -/
def Base (path : Str) : Str :=
  if path = [] then ['.']
  else
    let stripped := dropSlashes path.reverse
    let last := (untilSlash stripped).reverse
    if last = [] then ['/'] else last

/-- Scan of Go `filepath.Ext` over the reversed path: walks back from the end
until a separator, returning the suffix that starts at the first dot met.
`acc` is the part already walked over, in forward order. -/
def extScan : Str → Str → Str
  | [], _ => []
  | c :: cs, acc =>
    if c = '/' then []
    else if c = '.' then c :: acc
    else extScan cs (c :: acc)

/-- Go `filepath.Ext`: the suffix beginning at the final dot in the final
element of the path; empty if there is no dot. -/
def Ext (path : Str) : Str := extScan path.reverse []

/-- Splits a string at every slash. -/
def splitSlash : Str → List Str
  | [] => [[]]
  | c :: cs =>
    if c = '/' then [] :: splitSlash cs
    else
      match splitSlash cs with
      | [] => [[c]]
      | s :: ss => (c :: s) :: ss

/-- Joins path elements with slashes. -/
def joinSlash : List Str → Str
  | [] => []
  | [s] => s
  | s :: t :: ss => s ++ '/' :: joinSlash (t :: ss)

/-- The element loop of Go `filepath.Clean`: empty and `"."` elements are
dropped, `".."` removes the element before it, or is kept when nothing but
`".."` elements precede it in a relative path, or is dropped at the root.
`st` is the output so far, last element first. -/
def cleanSegs (rooted : Bool) : List Str → List Str → List Str
  | [], st => st.reverse
  | s :: ss, st =>
    if s = [] ∨ s = ['.'] then cleanSegs rooted ss st
    else if s = ['.', '.'] then
      match st with
      | [] => if rooted then cleanSegs rooted ss [] else cleanSegs rooted ss [s]
      | t :: st1 =>
        if t = ['.', '.'] then cleanSegs rooted ss (s :: t :: st1)
        else cleanSegs rooted ss st1
    else cleanSegs rooted ss (s :: st)

/-- Go `filepath.Clean` (Unix): the shortest path equivalent to `path` by
purely lexical processing. -/
def Clean (path : Str) : Str :=
  match path with
  | [] => ['.']
  | c :: _ =>
    let rooted := decide (c = '/')
    let body := joinSlash (cleanSegs rooted (splitSlash path) [])
    if rooted then '/' :: body
    else if body = [] then ['.'] else body

/-- Go `filepath.Join(dir, name)` for a non-empty first element: the two
elements are joined by a slash and the result is cleaned. -/
def Join (dir name : Str) : Str :=
  if dir = [] then (if name = [] then [] else Clean name)
  else Clean (dir ++ '/' :: name)

/-! ### `filepath.Match` -/

/-- Go `filepath.ErrBadPattern`. -/
def ErrBadPattern : String := "syntax error in pattern"

/-- The leading stars of a pattern: whether there is one, and what follows. -/
def dropStars : Str → Bool × Str
  | [] => (false, [])
  | c :: cs => if c = '*' then (true, (dropStars cs).2) else (false, c :: cs)

/-- The scanning loop of Go `scanChunk`: the pattern up to the first star
outside a character class, and the rest.  A backslash takes the next
character with it. -/
def scanLoop : Bool → Str → Str × Str
  | _, [] => ([], [])
  | inrange, c :: cs =>
    if c = '\\' then
      match cs with
      | [] => ([c], [])
      | d :: ds => (c :: d :: (scanLoop inrange ds).1, (scanLoop inrange ds).2)
    else if c = '[' then (c :: (scanLoop true cs).1, (scanLoop true cs).2)
    else if c = ']' then (c :: (scanLoop false cs).1, (scanLoop false cs).2)
    else if c = '*' then
      if inrange then (c :: (scanLoop inrange cs).1, (scanLoop inrange cs).2)
      else ([], c :: cs)
    else (c :: (scanLoop inrange cs).1, (scanLoop inrange cs).2)

/-- Go `scanChunk`: the next segment of the pattern, a non-star string
possibly preceded by stars: `(star, chunk, rest)`. -/
def scanChunk (pattern : Str) : Bool × Str × Str :=
  ((dropStars pattern).1, scanLoop false (dropStars pattern).2)

/-- Go `getEsc`: a possibly escaped character of a character class, and the
chunk after it, which must not be empty. -/
def getEsc (chunk : Str) : Except String (Char × Str) :=
  match chunk with
  | [] => .error ErrBadPattern
  | c :: cs =>
    if c = '-' ∨ c = ']' then .error ErrBadPattern
    else
      match (if c = '\\' then cs else c :: cs) with
      | [] => .error ErrBadPattern
      | r :: nchunk => if nchunk = [] then .error ErrBadPattern else .ok (r, nchunk)

/-- The range loop of a character class in Go `matchChunk`: reads ranges up to
the closing bracket and tells whether `r` lies in one of them. -/
def classLoop : Nat → Str → Char → Bool → Nat → Except String (Bool × Str)
  | 0, _, _, _, _ => .error ErrBadPattern
  | fuel + 1, chunk, r, matched, nrange =>
    match chunk with
    | [] => .error ErrBadPattern
    | c :: cs =>
      if c = ']' ∧ 0 < nrange then .ok (matched, cs)
      else
        match getEsc (c :: cs) with
        | .error e => .error e
        | .ok (lo, chunk1) =>
          match chunk1 with
          | [] => .error ErrBadPattern
          | d :: ds =>
            if d = '-' then
              match getEsc ds with
              | .error e => .error e
              | .ok (hi, chunk2) =>
                classLoop fuel chunk2 r (matched || (decide (lo ≤ r) && decide (r ≤ hi)))
                  (nrange + 1)
            else
              classLoop fuel (d :: ds) r (matched || (decide (lo ≤ r) && decide (r ≤ lo)))
                (nrange + 1)

/-- The loop of Go `matchChunk` with its `failed` flag: after the match has
failed the rest of the chunk is still checked for well-formedness. -/
def matchChunkLoop : Nat → Str → Str → Bool → Except String (Option Str)
  | 0, _, _, _ => .error ErrBadPattern
  | fuel + 1, chunk, s, failed0 =>
    match chunk with
    | [] => .ok (if failed0 then none else some s)
    | c :: cs =>
      let failed := failed0 || decide (s = [])
      if c = '[' then
        let r : Char := if failed then Char.ofNat 0 else s.headD (Char.ofNat 0)
        let s1 := if failed then s else s.tail
        let negated := decide (cs.head? = some '^')
        let cs1 := if negated then cs.tail else cs
        match classLoop (cs1.length + 1) cs1 r false 0 with
        | .error e => .error e
        | .ok (m, cs2) => matchChunkLoop fuel cs2 s1 (failed || (m == negated))
      else if c = '?' then
        if failed then matchChunkLoop fuel cs s true
        else matchChunkLoop fuel cs s.tail (decide (s.head? = some '/'))
      else if c = '\\' then
        match cs with
        | [] => .error ErrBadPattern
        | d :: ds =>
          if failed then matchChunkLoop fuel ds s true
          else matchChunkLoop fuel ds s.tail (decide (s.head? ≠ some d))
      else
        if failed then matchChunkLoop fuel cs s true
        else matchChunkLoop fuel cs s.tail (decide (s.head? ≠ some c))

/-- Go `matchChunk`: whether `chunk` matches the beginning of `s`, and then
the remainder of `s`; an error for a malformed chunk. -/
def matchChunk (chunk s : Str) : Except String (Option Str) :=
  matchChunkLoop (chunk.length + 1) chunk s false

/-- The loop of Go `Match` that looks for a match of the chunk after skipping
`i + 1` characters, never skipping a slash. -/
def starLoop (chunk : Str) (lastChunk : Bool) : Str → Except String (Option Str)
  | [] => .ok none
  | c :: cs =>
    if c = '/' then .ok none
    else
      match matchChunk chunk cs with
      | .error e => .error e
      | .ok (some t) => if lastChunk ∧ t ≠ [] then starLoop chunk lastChunk cs else .ok (some t)
      | .ok none => starLoop chunk lastChunk cs

/-- The final loop of Go `Match`: before answering "no match" the remainder of
the pattern is checked to be syntactically valid. -/
def checkRest : Nat → Str → Except String Bool
  | 0, _ => .error ErrBadPattern
  | fuel + 1, pattern =>
    if pattern = [] then .ok false
    else
      match matchChunk (scanChunk pattern).2.1 [] with
      | .error e => .error e
      | .ok _ => checkRest fuel (scanChunk pattern).2.2

/-- The main loop of Go `filepath.Match`, one chunk per iteration. -/
def matchLoop : Nat → Str → Str → Except String Bool
  | 0, _, _ => .error ErrBadPattern
  | fuel + 1, pattern, name =>
    if pattern = [] then .ok (decide (name = []))
    else
      let star := (scanChunk pattern).1
      let chunk := (scanChunk pattern).2.1
      let rest := (scanChunk pattern).2.2
      if star ∧ chunk = [] then .ok (!(name.contains '/'))
      else
        match matchChunk chunk name with
        | .error e => .error e
        | .ok r =>
          match (match r with
                 | some t => if t = [] ∨ rest ≠ [] then some t else none
                 | none => none) with
          | some t => matchLoop fuel rest t
          | none =>
            if star then
              match starLoop chunk (decide (rest = [])) name with
              | .error e => .error e
              | .ok (some t) => matchLoop fuel rest t
              | .ok none => checkRest (rest.length + 1) rest
            else checkRest (rest.length + 1) rest

/-- Go `filepath.Match`: whether `name` matches the shell file name pattern;
the only error is `ErrBadPattern`.  Every iteration of the loops takes at
least one character off the pattern, so the length of the pattern bounds
them (`Match_fuel`). -/
def Match (pattern name : Str) : Except String Bool :=
  matchLoop (pattern.length + 1) pattern name

/-- Go `hasMeta` (Unix): whether the path contains a character recognised by
`Match`. -/
def hasMeta (path : Str) : Bool :=
  path.any (fun c => decide (c = '*' ∨ c = '?' ∨ c = '[' ∨ c = '\\'))

/-! ## The filesystem -/

/-- What a path names: a regular file with its contents, or a directory. -/
inductive Node where
  | file (data : Bytes)
  | dir
  deriving DecidableEq, Repr

/-- The filesystem below the working directory of the process: a finite map
from cleaned paths to nodes.  There are no symbolic or hard links, so the node
a path names is the one stored under its lexically cleaned form. -/
abbrev FS := List (Str × Node)

/-- The node stored under a key. -/
def lookup : FS → Str → Option Node
  | [], _ => none
  | (q, n) :: rest, k => if q = k then some n else lookup rest k

/-- Removes a key. -/
def erase : FS → Str → FS
  | [], _ => []
  | (q, n) :: rest, k => if q = k then erase rest k else (q, n) :: erase rest k

/-- Binds a key to a node, replacing what it named. -/
def store (fs : FS) (k : Str) (n : Node) : FS := (k, n) :: erase fs k

/-- The node a path names, if any. -/
def nodeAt (fs : FS) (path : Str) : Option Node := lookup fs (Clean path)

/-- Whether a path names a directory; the working directory always exists. -/
def isDirAt (fs : FS) (path : Str) : Bool :=
  decide (Clean path = ['.']) || decide (lookup fs (Clean path) = some Node.dir)

/-- Whether a path names anything. -/
def existsAt (fs : FS) (path : Str) : Bool :=
  decide (Clean path = ['.']) || (lookup fs (Clean path)).isSome

/-- Go `filepath.Split`: splits after the final slash into directory and file
name. -/
def Split : Str → Str × Str
  | [] => ([], [])
  | c :: cs =>
    if '/' ∈ cs then (c :: (Split cs).1, (Split cs).2)
    else if c = '/' then ([c], cs)
    else ([], c :: cs)

/-- Removes `p` from the front of a string. -/
def stripPrefix : Str → Str → Option Str
  | [], s => some s
  | _ :: _, [] => none
  | c :: p, d :: s => if c = d then stripPrefix p s else none

/-- The text that the key of an entry of directory `d` starts with. -/
def dirPrefix (d : Str) : Str :=
  if d = ['.'] then [] else if d = ['/'] then d else d ++ ['/']

/-- The name of the entry stored under key `k` if it lies directly in the
directory with key `d`. -/
def childName (d k : Str) : Option Str :=
  match stripPrefix (dirPrefix d) k with
  | none => none
  | some n =>
    if n = [] ∨ '/' ∈ n ∨ n = ['.'] ∨ n = ['.', '.'] then none else some n

/-- Byte-wise order of strings. -/
def strLt : Str → Str → Bool
  | _, [] => false
  | [], _ :: _ => true
  | c :: cs, d :: ds => if c.toNat < d.toNat then true else if c = d then strLt cs ds else false

/-- Inserts a name into a sorted list of distinct names. -/
def insertName (n : Str) : List Str → List Str
  | [] => [n]
  | m :: ms =>
    if n = m then m :: ms
    else if strLt n m then n :: m :: ms
    else m :: insertName n ms

/-- Sorts names, dropping repetitions. -/
def sortNames (l : List Str) : List Str := l.foldr insertName []

/-- The names of the entries of a directory, sorted (`Readdirnames` followed by
`sort.Strings`, as in Go `glob`). -/
def Readdirnames (fs : FS) (dir : Str) : List Str :=
  sortNames (fs.filterMap (fun e => childName (Clean dir) e.1))

/-! ### `filepath.Glob` -/

/-- Go `cleanGlobPath` (Unix): prepares the directory part of a pattern. -/
def cleanGlobPath (path : Str) : Str :=
  if path = [] then ['.'] else if path = ['/'] then path else path.dropLast

/-- The loop of Go `glob` over the sorted names of a directory. -/
def globNames (dir pattern : Str) : List Str → List Str → Except String (List Str)
  | [], m => .ok m
  | n :: ns, m =>
    match Match pattern n with
    | .error e => .error e
    | .ok true => globNames dir pattern ns (m ++ [Join dir n])
    | .ok false => globNames dir pattern ns m

/-- Go `glob`: appends to `matches` the entries of `dir` matching `pattern`, in
lexicographical order; a directory that cannot be read contributes nothing. -/
def globDir (fs : FS) (dir pattern : Str) (found : List Str) : Except String (List Str) :=
  if isDirAt fs dir then globNames dir pattern (Readdirnames fs dir) found
  else .ok found

/-- The loop of Go `Glob` over the matches of the directory part. -/
def globEach (fs : FS) (file : Str) : List Str → List Str → Except String (List Str)
  | [], m => .ok m
  | d :: ds, m =>
    match globDir fs d file m with
    | .error e => .error e
    | .ok m1 => globEach fs file ds m1

/-- Go `globWithLimit`; the first argument counts the recursion depth left
before `pathSeparatorsLimit` is reached. -/
def globWithLimit (fs : FS) : Nat → Str → Except String (List Str)
  | 0, _ => .error ErrBadPattern
  | fuel + 1, pattern =>
    match Match pattern [] with
    | .error e => .error e
    | .ok _ =>
      if !hasMeta pattern then
        (if existsAt fs pattern then .ok [pattern] else .ok [])
      else
        let dir := cleanGlobPath (Split pattern).1
        let file := (Split pattern).2
        if !hasMeta dir then globDir fs dir file []
        else if dir = pattern then .error ErrBadPattern
        else
          match globWithLimit fs fuel dir with
          | .error e => .error e
          | .ok m => globEach fs file m []

/-- Go `filepath.Glob`: the names of all files matching the pattern. -/
def Glob (fs : FS) (pattern : Str) : Except String (List Str) :=
  globWithLimit fs 10000 pattern

/-! ## Operating-system calls -/

/-- The failures of operating-system calls that the filesystem map does not
determine (permissions, a full disk, an I/O error), for one request.  A handler
makes each of these calls at most once per request.  `copyErr = some (n, e)`
makes the writer (`io.Copy`, `png.Encode`) stop with error `e` after `n` bytes
have reached the file.  `statErr` makes `os.Stat` fail with an error other
than "not exist" (a directory on the way that may not be searched). -/
structure Faults where
  mkdirErr : Option String
  openErr : Option String
  createErr : Option String
  copyErr : Option (Nat × String)
  removeErr : Option String
  statErr : Option String
  deriving DecidableEq

/-- A request during which no injected failure occurs. -/
def noFaults : Faults := ⟨none, none, none, none, none, none⟩

/-- The text of a Go `*PathError`. -/
def pathError (op : String) (path : Str) (msg : String) : String :=
  op ++ " " ++ String.mk path ++ ": " ++ msg

/-- Go `os.Open`: succeeds on an existing file or directory. -/
def osOpen (fs : FS) (fault : Option String) (path : Str) : Except String Unit :=
  match fault with
  | some e => .error e
  | none =>
    if existsAt fs path then .ok ()
    else .error (pathError "open" path "no such file or directory")

/-- The directory part of a path, cleaned (Go `filepath.Dir`). -/
def parentDir (path : Str) : Str := Clean (Split (Clean path)).1

/-- Go `os.Create`: creates the file or truncates it; fails on a directory and
when the parent directory does not exist. -/
def osCreate (fs : FS) (fault : Option String) (path : Str) : Except String FS :=
  match fault with
  | some e => .error e
  | none =>
    if isDirAt fs path then .error (pathError "open" path "is a directory")
    else if isDirAt fs (parentDir path) then .ok (store fs (Clean path) (Node.file []))
    else .error (pathError "open" path "no such file or directory")

/-- Writing `content` to the file just created at `dst`: all of it, or the
first `n` bytes and an error. -/
def writeBytes (fs : FS) (fault : Option (Nat × String)) (dst : Str) (content : Bytes) :
    Option String × FS :=
  match fault with
  | none => (none, store fs (Clean dst) (Node.file content))
  | some (n, e) => (some e, store fs (Clean dst) (Node.file (content.take n)))

/-- Go `io.Copy(dst, src)` between two open files: what `src` holds when the
copy runs is written to `dst`; reading a directory fails. -/
def ioCopy (fs : FS) (fault : Option (Nat × String)) (dst src : Str) : Option String × FS :=
  match nodeAt fs src with
  | some (Node.file content) => writeBytes fs fault dst content
  | _ => (some (pathError "read" src "is a directory"), fs)

/-- Go `os.Remove`: removes the file or the empty directory. -/
def osRemove (fs : FS) (fault : Option String) (path : Str) : Except String FS :=
  match fault with
  | some e => .error e
  | none =>
    match nodeAt fs path with
    | none => .error (pathError "remove" path "no such file or directory")
    | some (Node.file _) => .ok (erase fs (Clean path))
    | some Node.dir =>
      if Readdirnames fs path = [] then .ok (erase fs (Clean path))
      else .error (pathError "remove" path "directory not empty")

/-- The loop of Go `os.MkdirAll` from the topmost ancestor down: an existing
directory is kept, a file in the way is an error, a missing directory is
created.  `pre` is the ancestor reached so far. -/
def mkdirSegs : FS → Option Str → List Str → Except String FS
  | fs, _, [] => .ok fs
  | fs, pre, s :: ss =>
    let q : Str := match pre with
      | none => s
      | some p => p ++ '/' :: s
    if q = [] then mkdirSegs fs (some q) ss
    else
      match lookup fs q with
      | some Node.dir => mkdirSegs fs (some q) ss
      | some (Node.file _) => .error (pathError "mkdir" q "not a directory")
      | none => mkdirSegs (store fs q Node.dir) (some q) ss

/-- Go `os.MkdirAll`: creates the directory along with any necessary parents;
a failure leaves the filesystem as it was. -/
def osMkdirAll (fs : FS) (fault : Option String) (path : Str) : Except String FS :=
  match fault with
  | some e => .error e
  | none =>
    if Clean path = ['.'] then .ok fs
    else mkdirSegs fs none (splitSlash (Clean path))

/-- The keys that `mkdirSegs` and `statWalk` look at: the path and its
ancestors, from the topmost down. -/
def mkdirKeys : Option Str → List Str → List Str
  | _, [] => []
  | pre, s :: ss =>
    let q : Str := match pre with
      | none => s
      | some p => p ++ '/' :: s
    q :: mkdirKeys (some q) ss

/-- The errors of `os.Stat`: the one for which `os.IsNotExist` holds (ENOENT),
and the others (ENOTDIR, ENAMETOOLONG, EINVAL, EACCES) with their text. -/
inductive StatError where
  | notExist
  | other (msg : String)
  deriving DecidableEq

/-- Go `os.IsNotExist` on the result of `os.Stat`. -/
def IsNotExist : Except StatError Unit → Bool
  | .error StatError.notExist => true
  | _ => false

/-- The longest file name, in bytes, that the system accepts (`NAME_MAX`). -/
def nameMax : Nat := 255

/-- The number of bytes of a string. -/
def byteLength (s : Str) : Nat := (s.map Char.utf8Size).sum

/-- Why a path under which nothing is stored cannot be resolved: the walk from
the topmost ancestor down stops at a name that is too long, at a regular file
standing where a directory is needed, or at a name that does not exist. -/
def statWalk : FS → Option Str → List Str → StatError
  | _, _, [] => StatError.notExist
  | fs, pre, s :: ss =>
    let q : Str := match pre with
      | none => s
      | some p => p ++ '/' :: s
    if nameMax < byteLength s then StatError.other "file name too long"
    else if q = [] then statWalk fs (some q) ss
    else
      match lookup fs q with
      | some Node.dir => statWalk fs (some q) ss
      | some (Node.file _) =>
        if ss = [] then StatError.notExist else StatError.other "not a directory"
      | none => StatError.notExist

/-- Go `os.Stat`, as far as its error goes: it succeeds on what `os.Open`
opens; a path with a NUL byte is refused without a system call; otherwise the
walk to the path tells how it fails. -/
def osStat (fs : FS) (fault : Option String) (path : Str) : Except StatError Unit :=
  match fault with
  | some e => .error (StatError.other e)
  | none =>
    if Char.ofNat 0 ∈ path then .error (StatError.other "invalid argument")
    else if existsAt fs path then .ok ()
    else .error (statWalk fs none (splitSlash (Clean path)))

/-! ## The handlers of `main.go` -/

/-- Go `uploadResponse`. -/
structure uploadResponse where
  FileUUID : Str
  deriving DecidableEq

/-- Go `setRequest`. -/
structure setRequest where
  FileUUID : Str
  FileName : Str
  deriving DecidableEq

/-- Go `setResponse`. -/
structure setResponse where
  Success : Bool
  Message : String
  deriving DecidableEq

/-- A request to a commit endpoint: its method and what decoding its JSON body
into a `setRequest` gives. -/
structure CommitRequest where
  Method : String
  Body : Except String setRequest

/-- A request to the upload endpoint: its method, the error of
`ParseMultipartForm` if any, and what `FormFile("file")` gives: the file name
of the part and its bytes. -/
structure UploadRequest where
  Method : String
  ParseErr : Option String
  File : Except String (Str × Bytes)

/-- What the upload handler answers: `http.Error` with a status and a text, or
status 200 with the JSON encoding of an `uploadResponse`. -/
inductive UploadReply where
  | error (status : Nat) (msg : String)
  | ok (resp : uploadResponse)
  deriving DecidableEq

/-- What the download handler answers: `http.Error` before anything was sent;
the whole file with status 200; or a copy that broke after `sent`, followed by
the text of the late `http.Error`. -/
inductive DownloadReply where
  | error (status : Nat) (msg : String)
  | file (contentType : String) (body : Bytes)
  | broken (contentType : String) (sent : Bytes) (msg : String)
  deriving DecidableEq

/-- The status line of a download reply: a late `http.Error` cannot change the
status once bytes were sent. -/
def DownloadReply.status : DownloadReply → Nat
  | .error st _ => st
  | .file _ _ => 200
  | .broken _ sent _ => if sent = [] then 500 else 200

/-- The image codecs linked into the service: `image.Decode` over the
registered formats and the output of `png.Encode`. -/
structure Codec (Img : Type) where
  decode : Bytes → Except String Img
  encode : Img → Bytes

/-- Go `SetFileResponseFunc`: the JSON envelope written to the client. -/
abbrev SetFileResponseFunc (success : Bool) (msg : String) : setResponse := ⟨success, msg⟩

/-- Go `uploadHandler`; `uuid` is the string of the identifier drawn by
`uuid.New()`. -/
def uploadHandler (fs : FS) (f : Faults) (uuid : Str) (r : UploadRequest) : UploadReply × FS :=
  if r.Method ≠ "POST" then (.error 405 "Method not allowed", fs)
  else
    match r.ParseErr with
    | some e => (.error 400 e, fs)
    | none =>
      match r.File with
      | .error e => (.error 400 e, fs)
      | .ok (filename, content) =>
        let ext := Ext filename
        let newName := uuid ++ ext
        match osMkdirAll fs f.mkdirErr uploadDir with
        | .error e => (.error 500 e, fs)
        | .ok fs1 =>
          match osCreate fs1 f.createErr (Join uploadDir newName) with
          | .error e => (.error 500 e, fs1)
          | .ok fs2 =>
            -- the result of io.Copy is not looked at
            (.ok ⟨uuid⟩, (writeBytes fs2 f.copyErr (Join uploadDir newName) content).2)

/-- Go `image.Decode` on the opened staged file: a directory cannot be read
and is no image. -/
def decodeNode {Img : Type} (codec : Codec Img) : Option Node → Except String Img
  | some (Node.file content) => codec.decode content
  | _ => .error "image: unknown format"

/-- Go `convertToPNG`. -/
def convertToPNG {Img : Type} (codec : Codec Img) (fs : FS) (f : Faults) (src dst : Str) :
    Option String × FS :=
  match osOpen fs f.openErr src with
  | .error e => (some e, fs)
  | .ok _ =>
    match decodeNode codec (nodeAt fs src) with
    | .error e => (some e, fs)
    | .ok img =>
      match osCreate fs f.createErr dst with
      | .error e => (some e, fs)
      | .ok fs1 => writeBytes fs1 f.copyErr dst (codec.encode img)

/-- Go `setAvatarHandler`. -/
def setAvatarHandler {Img : Type} (codec : Codec Img) (fs : FS) (f : Faults)
    (r : CommitRequest) : setResponse × FS :=
  if r.Method ≠ "POST" then (SetFileResponseFunc false "Not post method", fs)
  else
    match r.Body with
    | .error _ => (SetFileResponseFunc false "Bad json", fs)
    | .ok req =>
      let fileUUID := req.FileUUID
      let fileName := req.FileName ++ pngExt
      if fileUUID = [] ∨ fileName = [] then (SetFileResponseFunc false "Missing param", fs)
      else
        match Glob fs (Join uploadDir (fileUUID ++ ['*'])) with
        | .error e => (SetFileResponseFunc false e, fs)
        | .ok [] => (SetFileResponseFunc false "File not found", fs)
        | .ok (oldFile :: _) =>
          match osMkdirAll fs f.mkdirErr avatarDir with
          | .error e => (SetFileResponseFunc false e, fs)
          | .ok fs1 =>
            let newFile := Join avatarDir fileName
            match convertToPNG codec fs1 f oldFile newFile with
            | (some e, fs2) => (SetFileResponseFunc false e, fs2)
            | (none, fs2) =>
              match osRemove fs2 f.removeErr oldFile with
              | .error e => (SetFileResponseFunc false e, fs2)
              | .ok fs3 => (SetFileResponseFunc true "", fs3)

/-- Go `MoveFile`. -/
def MoveFile (fs : FS) (f : Faults) (sourcePath destPath : Str) : Option String × FS :=
  match osOpen fs f.openErr sourcePath with
  | .error e => (some ("couldn't open source file: " ++ e), fs)
  | .ok _ =>
    match osCreate fs f.createErr destPath with
    | .error e => (some ("couldn't open dest file: " ++ e), fs)
    | .ok fs1 =>
      match ioCopy fs1 f.copyErr destPath sourcePath with
      | (some e, fs2) => (some ("writing to output file failed: " ++ e), fs2)
      | (none, fs2) =>
        match osRemove fs2 f.removeErr sourcePath with
        | .error e => (some ("fail removing original file: " ++ e), fs2)
        | .ok fs3 => (none, fs3)

/-- Go `setFileHandler(dir)`. -/
def setFileHandler (dir : Str) (fs : FS) (f : Faults) (r : CommitRequest) : setResponse × FS :=
  if r.Method ≠ "POST" then (SetFileResponseFunc false "Method not allowed", fs)
  else
    match r.Body with
    | .error e => (SetFileResponseFunc false e, fs)
    | .ok req =>
      let fileUUID := req.FileUUID
      let fileName := req.FileName ++ txtExt
      if fileUUID = [] ∨ fileName = [] then (SetFileResponseFunc false "Missing parameters", fs)
      else
        match Glob fs (Join uploadDir (fileUUID ++ ['*'])) with
        | .error e => (SetFileResponseFunc false e, fs)
        | .ok [] => (SetFileResponseFunc false "File not found", fs)
        | .ok (oldFile :: _) =>
          let newFile := Join dir fileName
          match osMkdirAll fs f.mkdirErr dir with
          | .error e => (SetFileResponseFunc false e, fs)
          | .ok fs1 =>
            match MoveFile fs1 f oldFile newFile with
            | (some e, fs2) => (SetFileResponseFunc false e, fs2)
            | (none, fs2) => (SetFileResponseFunc true "", fs2)

/-- The path that Go `downloadFileHandler(dir)` stats and opens for a request
with URL path `urlPath`. -/
def downloadPath (dir urlPath : Str) : Str := dir ++ '/' :: Base urlPath

/-- Go `downloadFileHandler(dir)`; `mime` is `mime.TypeByExtension`.  Only the
"not exist" error of `os.Stat` gives 404; after any other error of `os.Stat`
the handler goes on to `os.Open`. -/
def downloadFileHandler (mime : Str → String) (dir : Str) (fs : FS) (f : Faults)
    (urlPath : Str) : DownloadReply × FS :=
  let filename := Base urlPath
  let filePath := downloadPath dir urlPath
  if IsNotExist (osStat fs f.statErr filePath) then (.error 404 "File not found", fs)
  else
    match osOpen fs f.openErr filePath with
    | .error _ => (.error 500 "Failed to open file", fs)
    | .ok _ =>
      let contentType :=
        if mime (Ext filename) = "" then "application/octet-stream" else mime (Ext filename)
      match nodeAt fs filePath with
      | some (Node.file content) =>
        match f.copyErr with
        | none => (.file contentType content, fs)
        | some (n, _) =>
          (.broken contentType (content.take n) "Failed to copy file to response", fs)
      | _ => (.broken contentType [] "Failed to copy file to response", fs)

/-- A small filesystem used in examples. -/
def fsDemo : FS :=
  [("files".toList, Node.dir), ("files/upload".toList, Node.dir),
   ("files/upload/u1.png".toList, Node.file [1, 2]),
   ("files/upload/u1.jpg".toList, Node.file [3]),
   ("files/upload/u2.txt".toList, Node.file [4, 5, 6]),
   ("files/upload/u3.gif".toList, Node.file [137, 8, 9]),
   ("files/answer".toList, Node.dir),
   ("files/answer/a.txt".toList, Node.file [7])]

/-- A toy codec used in examples: an image file is the byte 137 followed by the
pixels, and encoding writes the same form. -/
def demoCodec : Codec Bytes :=
  { decode := fun b =>
      match b with
      | [] => .error "image: unknown format"
      | x :: px => if x = 137 then .ok px else .error "image: unknown format"
    encode := fun px => 137 :: px }

/-- A POST commit request with a decoded body. -/
def post (uuid name : String) : CommitRequest :=
  ⟨"POST", .ok ⟨uuid.toList, name.toList⟩⟩

/-! ## Definitions used in the statements and proofs -/

/-- A path element that `Clean` keeps: not empty, not `"."`, without slash. -/
def GoodSeg (s : Str) : Prop := s ≠ [] ∧ s ≠ ['.'] ∧ '/' ∉ s

/-- Replaying the elements `l` on top of the stack `acc` never pops: every
element is kept, and `".."` only comes on top of nothing but `".."`. -/
def Steady (rooted : Bool) : List Str → List Str → Prop
  | _, [] => True
  | acc, s :: ss =>
    GoodSeg s ∧ (s = ['.', '.'] → rooted = false ∧ ∀ u ∈ acc, u = ['.', '.']) ∧
      Steady rooted (s :: acc) ss

/-- A request during which the copy stops after one byte on a full disk. -/
def diskFull : Faults := ⟨none, none, none, some (1, "no space left on device"), none, none⟩

/-- A request during which the staged file cannot be removed. -/
def removeDenied : Faults := ⟨none, none, none, none, some "permission denied", none⟩

/-- A character that `Match` takes literally. -/
def LitChar (c : Char) : Prop := c ≠ '*' ∧ c ≠ '?' ∧ c ≠ '[' ∧ c ≠ '\\'

/-- An identifier without path separator and without a character special to
`Match`, as every identifier drawn by the upload handler is. -/
def PlainId (id : Str) : Prop := id ≠ [] ∧ ∀ c ∈ id, c ≠ '/' ∧ LitChar c

instance (c : Char) : Decidable (LitChar c) := by unfold LitChar; infer_instance

instance (id : Str) : Decidable (PlainId id) := by unfold PlainId; infer_instance

/-- The three commit routes registered in `main`. -/
inductive Endpoint where
  | setAvatar
  | setAnswer
  | setTest
  deriving DecidableEq

/-- The category directory of a commit route. -/
def Endpoint.dir : Endpoint → Str
  | .setAvatar => avatarDir
  | .setAnswer => answerDir
  | .setTest => testDir

/-- The fixed extension of a commit route. -/
def Endpoint.ext : Endpoint → Str
  | .setAvatar => pngExt
  | .setAnswer => txtExt
  | .setTest => txtExt

/-- The handler `main` registers for a commit route. -/
def commitHandler {Img : Type} (codec : Codec Img) :
    Endpoint → FS → Faults → CommitRequest → setResponse × FS
  | .setAvatar => setAvatarHandler codec
  | .setAnswer => setFileHandler answerDir
  | .setTest => setFileHandler testDir

/-- The path at which a commit route puts the file committed under `name`. -/
def committedPath (ep : Endpoint) (name : Str) : Str := Join ep.dir (name ++ ep.ext)

/-- The names below the staging directory that the filesystem map binds. -/
def stagedNames (fs : FS) : List Str :=
  fs.filterMap (fun e => stripPrefix (uploadDir ++ ['/']) e.1)

/-- A lower-case hexadecimal digit. -/
def isHexDigit (c : Char) : Bool :=
  (decide ('0' ≤ c) && decide (c ≤ '9')) || (decide ('a' ≤ c) && decide (c ≤ 'f'))

/-- The form of the strings of `uuid.New().String()`. -/
def uuidShape : Str := "xxxxxxxx-xxxx-xxxx-xxxx-xxxxxxxxxxxx".toList

/-- Whether a string has a dash where the shape has one and a hexadecimal
digit elsewhere. -/
def matchesShape : Str → Str → Bool
  | [], [] => true
  | c :: cs, t :: ts =>
    (if t = '-' then decide (c = '-') else isHexDigit c) && matchesShape cs ts
  | _, _ => false

/-- Whether a string is the text of a UUID as the upload handler draws it. -/
def isUUIDString (s : Str) : Bool := matchesShape s uuidShape

/-- An identifier used in examples. -/
def uuidDemo : Str := "123e4567-e89b-12d3-a456-426614174000".toList

/-- An upload of three bytes named `x.txt` into the empty filesystem. -/
def uploadDemoRequest : UploadRequest := ⟨"POST", none, .ok ("x.txt".toList, [1, 2, 3])⟩

/-- The filesystem after the example upload under the example identifier. -/
def fsUploaded : FS := (uploadHandler [] noFaults uuidDemo uploadDemoRequest).2

/-- A POST commit request for the example identifier. -/
def postDemo (name : Str) : CommitRequest := ⟨"POST", .ok ⟨uuidDemo, name⟩⟩

/-- A filesystem with one file beside the staging directory. -/
def fsStray : FS :=
  [("files".toList, Node.dir), ("files/upload".toList, Node.dir),
   ("files/anx".toList, Node.file [1])]

/-- A filesystem in which a regular file stands at the path of the answer
directory. -/
def fsBlocked : FS :=
  [("files".toList, Node.dir), ("files/answer".toList, Node.file [1])]

/-- A URL path whose last element has 300 characters. -/
def longUrlPath : Str := "/answer/".toList ++ List.replicate 300 'a'

/-- A URL path whose last element has a NUL byte. -/
def nulUrlPath : Str := "/answer/b".toList ++ [Char.ofNat 0]

/-- A request during which `os.Stat` is refused. -/
def statDenied : Faults := ⟨none, none, none, none, none, some "permission denied"⟩

/-! ## Facts about paths -/

theorem untilSlash_no_slash (s : Str) : '/' ∉ untilSlash s := by
  induction s with
  | nil => simp [untilSlash]
  | cons c cs ih =>
    unfold untilSlash
    split
    · simp
    · rename_i hc
      simp only [List.mem_cons, not_or]
      exact ⟨fun h => hc h.symm, ih⟩

theorem Base_ne_nil (p : Str) : Base p ≠ [] := by
  unfold Base
  split
  · simp
  · simp only
    split
    · simp
    · assumption

theorem Base_slash_free (p : Str) : Base p = ['/'] ∨ '/' ∉ Base p := by
  unfold Base
  split
  · right; decide
  · simp only
    split
    · left; rfl
    · right
      rw [List.mem_reverse]
      exact untilSlash_no_slash _

theorem splitSlash_of_no_slash (s : Str) (h : '/' ∉ s) : splitSlash s = [s] := by
  induction s with
  | nil => rfl
  | cons c cs ih =>
    simp only [List.mem_cons, not_or] at h
    unfold splitSlash
    rw [if_neg (fun hc => h.1 hc.symm), ih h.2]

theorem splitSlash_append (s t : Str) (h : '/' ∉ s) :
    splitSlash (s ++ '/' :: t) = s :: splitSlash t := by
  induction s with
  | nil => simp [splitSlash]
  | cons c cs ih =>
    simp only [List.mem_cons, not_or] at h
    simp only [List.cons_append]
    conv_lhs => rw [splitSlash]
    rw [if_neg (fun hc => h.1 hc.symm), ih h.2]

theorem splitSlash_slash_free (s : Str) : ∀ x ∈ splitSlash s, '/' ∉ x := by
  induction s with
  | nil => simp [splitSlash]
  | cons c cs ih =>
    unfold splitSlash
    split
    · intro x hx
      simp only [List.mem_cons] at hx
      rcases hx with rfl | hx
      · simp
      · exact ih x hx
    · rename_i hc
      split
      · intro x hx
        simp only [List.mem_singleton] at hx
        subst hx
        simp only [List.mem_singleton]
        exact fun h => hc h.symm
      · rename_i s ss heq
        intro x hx
        simp only [List.mem_cons] at hx
        rcases hx with rfl | hx
        · simp only [List.mem_cons, not_or]
          exact ⟨fun h => hc h.symm, ih s (by simp [heq])⟩
        · exact ih x (by simp [heq, hx])

theorem splitSlash_joinSlash (segs : List Str) (hne : segs ≠ []) (h : ∀ s ∈ segs, '/' ∉ s) :
    splitSlash (joinSlash segs) = segs := by
  induction segs with
  | nil => exact absurd rfl hne
  | cons s ss ih =>
    cases ss with
    | nil => simpa [joinSlash] using splitSlash_of_no_slash s (h s (by simp))
    | cons t ts =>
      simp only [joinSlash]
      rw [splitSlash_append s _ (h s (by simp)), ih (by simp) (fun x hx => h x (by simp [hx]))]

theorem Steady_append (rooted : Bool) (l : List Str) (s : Str) :
    ∀ acc, Steady rooted acc (l ++ [s]) ↔
      Steady rooted acc l ∧ GoodSeg s ∧
        (s = ['.', '.'] → rooted = false ∧ ∀ u ∈ l.reverse ++ acc, u = ['.', '.']) := by
  induction l with
  | nil => intro acc; simp [Steady]
  | cons t ts ih =>
    intro acc
    show (GoodSeg t ∧ _ ∧ Steady rooted (t :: acc) (ts ++ [s])) ↔ _
    rw [ih]
    simp only [Steady, List.reverse_cons, List.append_assoc, List.singleton_append]
    constructor
    · rintro ⟨a, b, c, d, e⟩; exact ⟨⟨a, b, c⟩, d, e⟩
    · rintro ⟨⟨a, b, c⟩, d, e⟩; exact ⟨a, b, c, d, e⟩

theorem cleanSegs_steady (rooted : Bool) (l : List Str) :
    ∀ acc, Steady rooted acc l → cleanSegs rooted l acc = acc.reverse ++ l := by
  induction l with
  | nil => intro acc _; simp [cleanSegs]
  | cons s ss ih =>
    intro acc h
    obtain ⟨⟨h1, h2, _⟩, h4, h5⟩ := h
    unfold cleanSegs
    rw [if_neg (by simp [h1, h2])]
    split
    · rename_i hs
      obtain ⟨hr, hall⟩ := h4 hs
      subst hr
      cases acc with
      | nil =>
        simp only [Bool.false_eq_true, if_false]
        have := ih [s] h5
        simpa using this
      | cons t st1 =>
        simp only
        rw [if_pos (hall t (by simp))]
        have := ih (s :: t :: st1) h5
        simpa using this
    · have := ih (s :: acc) h5
      simpa using this

theorem cleanSegs_inv (rooted : Bool) (l : List Str) (hl : ∀ s ∈ l, '/' ∉ s) :
    ∀ st, Steady rooted [] st.reverse → Steady rooted [] (cleanSegs rooted l st) := by
  induction l with
  | nil => intro st h; simpa [cleanSegs] using h
  | cons s ss ih =>
    intro st h
    have hss : ∀ x ∈ ss, '/' ∉ x := fun x hx => hl x (by simp [hx])
    unfold cleanSegs
    split
    · exact ih hss st h
    · rename_i hgood
      simp only [not_or] at hgood
      have hg : GoodSeg s := ⟨hgood.1, hgood.2, hl s (by simp)⟩
      split
      · rename_i hs
        cases st with
        | nil =>
          simp only
          cases rooted with
          | true => simpa using ih hss [] h
          | false =>
            simp only [Bool.false_eq_true, if_false]
            apply ih hss
            show Steady false [] [s]
            exact ⟨hg, fun _ => ⟨rfl, by simp⟩, trivial⟩
        | cons t st1 =>
          simp only
          simp only [List.reverse_cons] at h
          rw [Steady_append] at h
          split
          · rename_i ht
            apply ih hss
            simp only [List.reverse_cons]
            rw [Steady_append, Steady_append]
            refine ⟨⟨h.1, h.2.1, h.2.2⟩, hg, fun _ => ⟨(h.2.2 ht).1, ?_⟩⟩
            intro u hu
            simp only [List.append_nil, List.reverse_append, List.reverse_cons, List.reverse_nil,
              List.nil_append, List.reverse_reverse, List.singleton_append,
              List.mem_cons] at hu
            rcases hu with rfl | hu
            · exact ht
            · exact (h.2.2 ht).2 u (by simpa using hu)
          · exact ih hss st1 h.1
      · rename_i hs
        apply ih hss
        simp only [List.reverse_cons]
        rw [Steady_append]
        exact ⟨h, hg, fun hh => absurd hh hs⟩

theorem Steady_good (rooted : Bool) (l : List Str) :
    ∀ acc, Steady rooted acc l → ∀ s ∈ l, GoodSeg s := by
  induction l with
  | nil => intro _ _ s hs; simp at hs
  | cons t ts ih =>
    intro acc h s hs
    simp only [List.mem_cons] at hs
    rcases hs with rfl | hs
    · exact h.1
    · exact ih _ h.2.2 s hs

theorem joinSlash_head (s : Str) (ss : List Str) (c : Char) (cs : Str)
    (h : joinSlash (s :: ss) = c :: cs) (hs : s ≠ []) : c ∈ s := by
  cases s with
  | nil => exact absurd rfl hs
  | cons d ds =>
    cases ss with
    | nil => simp only [joinSlash] at h; simp [(List.cons.inj h).1]
    | cons t ts => simp only [joinSlash, List.cons_append] at h; simp [(List.cons.inj h).1]

/-- `Clean` is idempotent, as Go documents. -/
theorem Clean_idem (p : Str) : Clean (Clean p) = Clean p := by
  cases p with
  | nil => decide
  | cons c cs =>
    have hsf := splitSlash_slash_free (c :: cs)
    cases hr : decide (c = '/') with
    | true =>
      have hinv := cleanSegs_inv true (splitSlash (c :: cs)) hsf [] (by simp [Steady])
      have hgood := Steady_good true _ [] hinv
      have hst := cleanSegs_steady true _ [] hinv
      simp only [List.reverse_nil, List.nil_append] at hst
      simp only [Clean, hr, if_true]
      generalize cleanSegs true (splitSlash (c :: cs)) [] = segs at *
      simp only [decide_True, if_true]
      congr 1
      cases hsegs : segs with
      | nil => decide
      | cons s ss =>
        rw [← hsegs]
        have h1 : splitSlash ('/' :: joinSlash segs) = [] :: segs := by
          rw [splitSlash, if_pos rfl,
            splitSlash_joinSlash segs (by simp [hsegs]) (fun x hx => (hgood x hx).2.2)]
        rw [h1]
        unfold cleanSegs
        simp only [true_or, if_true]
        rw [hst]
    | false =>
      have hinv := cleanSegs_inv false (splitSlash (c :: cs)) hsf [] (by simp [Steady])
      have hgood := Steady_good false _ [] hinv
      have hst := cleanSegs_steady false _ [] hinv
      simp only [List.reverse_nil, List.nil_append] at hst
      have hC : Clean (c :: cs) =
          if joinSlash (cleanSegs false (splitSlash (c :: cs)) []) = [] then ['.']
          else joinSlash (cleanSegs false (splitSlash (c :: cs)) []) := by
        simp [Clean, hr]
      rw [hC]
      generalize cleanSegs false (splitSlash (c :: cs)) [] = segs at *
      by_cases hbody : joinSlash segs = []
      · rw [if_pos hbody]; decide
      · rw [if_neg hbody]
        cases hsegs : segs with
        | nil => rw [hsegs] at hbody; exact absurd rfl hbody
        | cons s ss =>
          rw [← hsegs]
          cases hj : joinSlash segs with
          | nil => exact absurd hj hbody
          | cons d ds =>
            have hd : d ∈ s :=
              joinSlash_head s ss d ds (by rw [← hsegs, hj]) (hgood s (by simp [hsegs])).1
            have hds : d ≠ '/' := fun hh => (hgood s (by simp [hsegs])).2.2 (hh ▸ hd)
            have hdec : decide (d = '/') = false := by simp [hds]
            simp only [Clean, hdec, Bool.false_eq_true, if_false]
            rw [← hj, splitSlash_joinSlash segs (by simp [hsegs]) (fun x hx => (hgood x hx).2.2),
              hst]
            simp [hbody]

/-! ## Facts about the filesystem map -/

theorem lookup_erase (fs : FS) (k q : Str) :
    lookup (erase fs k) q = if k = q then none else lookup fs q := by
  induction fs with
  | nil => simp [erase, lookup]
  | cons e rest ih =>
    obtain ⟨p, n⟩ := e
    unfold erase
    by_cases hpk : p = k
    · rw [if_pos hpk, ih]
      by_cases hkq : k = q
      · simp [hkq]
      · simp [hkq, lookup, hpk]
    · rw [if_neg hpk]
      simp only [lookup, ih]
      by_cases hkq : k = q
      · subst hkq; simp [hpk]
      · simp [hkq]

theorem lookup_store (fs : FS) (k q : Str) (n : Node) :
    lookup (store fs k n) q = if k = q then some n else lookup fs q := by
  unfold store
  simp only [lookup, lookup_erase]
  by_cases hkq : k = q <;> simp [hkq]

theorem lookup_of_mem (fs : FS) (k : Str) (n : Node) (h : (k, n) ∈ fs) :
    lookup fs k ≠ none := by
  induction fs with
  | nil => simp at h
  | cons e rest ih =>
    obtain ⟨p, m⟩ := e
    simp only [lookup]
    by_cases hpk : p = k
    · simp [hpk]
    · rw [if_neg hpk]
      apply ih
      simp only [List.mem_cons, Prod.mk.injEq] at h
      rcases h with ⟨h1, _⟩ | h
      · exact absurd h1.symm hpk
      · exact h

/-- `MkdirAll` only adds directories, and only at the ancestors it walks. -/
theorem mkdirSegs_lookup (segs : List Str) :
    ∀ (fs fs1 : FS) (pre : Option Str), mkdirSegs fs pre segs = .ok fs1 →
      ∀ k, lookup fs1 k = lookup fs k ∨
        (lookup fs k = none ∧ lookup fs1 k = some Node.dir ∧ k ∈ mkdirKeys pre segs) := by
  induction segs with
  | nil =>
    intro fs fs1 pre h k
    simp only [mkdirSegs, Except.ok.injEq] at h
    subst h; left; rfl
  | cons s ss ih =>
    intro fs fs1 pre h k
    simp only [mkdirSegs] at h
    simp only [mkdirKeys, List.mem_cons]
    generalize (match pre with
      | none => s
      | some p => p ++ '/' :: s) = q at h ⊢
    split at h
    · rcases ih fs fs1 _ h k with h1 | ⟨h1, h2, h3⟩
      · left; exact h1
      · right; exact ⟨h1, h2, Or.inr h3⟩
    · split at h
      · rcases ih fs fs1 _ h k with h1 | ⟨h1, h2, h3⟩
        · left; exact h1
        · right; exact ⟨h1, h2, Or.inr h3⟩
      · simp at h
      · rename_i hq
        rcases ih _ fs1 _ h k with h1 | ⟨h1, h2, h3⟩
        · rw [lookup_store] at h1
          by_cases hqk : q = k
          · rw [if_pos hqk] at h1
            right
            exact ⟨hqk ▸ hq, h1, Or.inl hqk.symm⟩
          · rw [if_neg hqk] at h1
            left; exact h1
        · rw [lookup_store] at h1
          by_cases hqk : q = k
          · rw [if_pos hqk] at h1; simp at h1
          · rw [if_neg hqk] at h1
            right; exact ⟨h1, h2, Or.inr h3⟩

theorem osMkdirAll_lookup (fs fs1 : FS) (fault : Option String) (path : Str)
    (h : osMkdirAll fs fault path = .ok fs1) (k : Str) :
    lookup fs1 k = lookup fs k ∨
      (lookup fs k = none ∧ lookup fs1 k = some Node.dir ∧
        k ∈ mkdirKeys none (splitSlash (Clean path))) := by
  unfold osMkdirAll at h
  split at h
  · simp at h
  · split at h
    · simp only [Except.ok.injEq] at h
      subst h; left; rfl
    · exact mkdirSegs_lookup _ fs fs1 none h k

/-- `MkdirAll` keeps every node that was there. -/
theorem osMkdirAll_keeps (fs fs1 : FS) (fault : Option String) (path : Str)
    (h : osMkdirAll fs fault path = .ok fs1) (k : Str) (n : Node)
    (hk : lookup fs k = some n) : lookup fs1 k = some n := by
  rcases osMkdirAll_lookup fs fs1 fault path h k with h1 | ⟨h1, _, _⟩
  · rw [h1, hk]
  · rw [hk] at h1; simp at h1

/-- `MkdirAll` creates no regular file. -/
theorem osMkdirAll_file (fs fs1 : FS) (fault : Option String) (path : Str)
    (h : osMkdirAll fs fault path = .ok fs1) (k : Str) (b : Bytes)
    (hk : lookup fs1 k = some (Node.file b)) : lookup fs k = some (Node.file b) := by
  rcases osMkdirAll_lookup fs fs1 fault path h k with h1 | ⟨_, h2, _⟩
  · rw [← h1, hk]
  · rw [hk] at h2; simp at h2

/-! ## Facts about the handlers -/

theorem txtExt_ne_nil : txtExt ≠ [] := by decide

theorem pngExt_ne_nil : pngExt ≠ [] := by decide

theorem append_txtExt_ne_nil (name : Str) : name ++ txtExt ≠ [] := by
  intro h
  have := congrArg List.length h
  simp [txtExt] at this

/-- The generic commit handler once the staged file is found and the category
directory exists: it answers with the outcome of `MoveFile`. -/
theorem setFileHandler_move (dir : Str) (fs fs1 : FS) (f : Faults) (r : CommitRequest)
    (req : setRequest) (src : Str) (rest : List Str)
    (hm : r.Method = "POST") (hb : r.Body = .ok req) (hu : req.FileUUID ≠ [])
    (hg : Glob fs (Join uploadDir (req.FileUUID ++ ['*'])) = .ok (src :: rest))
    (hmk : osMkdirAll fs f.mkdirErr dir = .ok fs1) :
    setFileHandler dir fs f r =
      match MoveFile fs1 f src (Join dir (req.FileName ++ txtExt)) with
      | (some e, fs2) => (⟨false, e⟩, fs2)
      | (none, fs2) => (⟨true, ""⟩, fs2) := by
  simp [setFileHandler, hm, hb, hu, hg, hmk, txtExt_ne_nil]

/-- The avatar commit handler once the staged file is found and the avatar
directory exists. -/
theorem setAvatarHandler_convert {Img : Type} (codec : Codec Img) (fs fs1 : FS) (f : Faults)
    (r : CommitRequest) (req : setRequest) (src : Str) (rest : List Str)
    (hm : r.Method = "POST") (hb : r.Body = .ok req) (hu : req.FileUUID ≠ [])
    (hg : Glob fs (Join uploadDir (req.FileUUID ++ ['*'])) = .ok (src :: rest))
    (hmk : osMkdirAll fs f.mkdirErr avatarDir = .ok fs1) :
    setAvatarHandler codec fs f r =
      match convertToPNG codec fs1 f src (Join avatarDir (req.FileName ++ pngExt)) with
      | (some e, fs2) => (⟨false, e⟩, fs2)
      | (none, fs2) =>
        match osRemove fs2 f.removeErr src with
        | .error e => (⟨false, e⟩, fs2)
        | .ok fs3 => (⟨true, ""⟩, fs3) := by
  simp [setAvatarHandler, hm, hb, hu, hg, hmk, pngExt_ne_nil]

theorem existsAt_of_nodeAt (fs : FS) (p : Str) (n : Node) (h : nodeAt fs p = some n) :
    existsAt fs p = true := by
  unfold nodeAt at h
  simp [existsAt, h]

/-- C10: the file name the download handler resolves from a URL path is never
empty and has no slash unless it is the single slash, and the path the handler
stats and opens is the directory, a slash and that one element. -/
theorem download_path_single_segment (dir p : Str) :
    Base p ≠ [] ∧ (Base p = ['/'] ∨ '/' ∉ Base p) ∧
      downloadPath dir p = dir ++ '/' :: Base p :=
  ⟨Base_ne_nil p, Base_slash_free p, rfl⟩

theorem statWalk_notExist (segs : List Str) :
    ∀ (fs : FS) (pre : Option Str), (∀ s ∈ segs, byteLength s ≤ nameMax) →
      (∀ q ∈ mkdirKeys pre segs, lookup fs q = none ∨ lookup fs q = some Node.dir) →
      statWalk fs pre segs = StatError.notExist := by
  induction segs with
  | nil => intro _ _ _ _; rfl
  | cons s ss ih =>
    intro fs pre hlen hkeys
    have hs : ¬ nameMax < byteLength s := Nat.not_lt.mpr (hlen s (by simp))
    have hss : ∀ x ∈ ss, byteLength x ≤ nameMax := fun x hx => hlen x (by simp [hx])
    simp only [mkdirKeys, List.mem_cons, forall_eq_or_imp] at hkeys
    simp only [statWalk, if_neg hs]
    generalize (match pre with
      | none => s
      | some p => p ++ '/' :: s) = q at hkeys ⊢
    split
    · exact ih fs _ hss hkeys.2
    · rcases hkeys.1 with h | h
      · rw [h]
      · rw [h]; exact ih fs _ hss hkeys.2

/-- `os.Stat` does not report a path that `os.Open` opens as not existing. -/
theorem osStat_of_exists (fs : FS) (fault : Option String) (p : Str)
    (h : existsAt fs p = true) : IsNotExist (osStat fs fault p) = false := by
  unfold osStat
  split
  · rfl
  · split
    · rfl
    · simp [h, IsNotExist]

/-- C8 (amended): a download of an existing regular readable file answers
status 200 with the bytes of the file.  A download of a name under which
nothing exists answers 404 with the text "File not found" when `os.Stat` can
tell so: it is not refused, the path has no NUL byte, no name in it is longer
than the system accepts and nothing but directories stands on the way.  When
`os.Stat` fails in another way and nothing exists at the path, the answer is
500 with "Failed to open file".  The filesystem always stays as it was. -/
theorem download_existing_or_missing (mime : Str → String) (dir : Str) (fs : FS) (f : Faults)
    (urlPath : Str) :
    (∀ content, nodeAt fs (downloadPath dir urlPath) = some (Node.file content) →
        f.openErr = none → f.copyErr = none →
        ∃ ct, downloadFileHandler mime dir fs f urlPath = (DownloadReply.file ct content, fs) ∧
          (DownloadReply.file ct content).status = 200) ∧
    (f.statErr = none → Char.ofNat 0 ∉ downloadPath dir urlPath →
        existsAt fs (downloadPath dir urlPath) = false →
        (∀ s ∈ splitSlash (Clean (downloadPath dir urlPath)), byteLength s ≤ nameMax) →
        (∀ q ∈ mkdirKeys none (splitSlash (Clean (downloadPath dir urlPath))),
          lookup fs q = none ∨ lookup fs q = some Node.dir) →
        downloadFileHandler mime dir fs f urlPath
          = (DownloadReply.error 404 "File not found", fs)) ∧
    (∀ e, osStat fs f.statErr (downloadPath dir urlPath) = .error (StatError.other e) →
        existsAt fs (downloadPath dir urlPath) = false →
        downloadFileHandler mime dir fs f urlPath
          = (DownloadReply.error 500 "Failed to open file", fs)) ∧
    (downloadFileHandler mime dir fs f urlPath).2 = fs := by
  refine ⟨?_, ?_, ?_, ?_⟩
  · intro content hn ho hc
    have hex := existsAt_of_nodeAt _ _ _ hn
    have hst := osStat_of_exists fs f.statErr _ hex
    refine ⟨if mime (Ext (Base urlPath)) = "" then "application/octet-stream"
      else mime (Ext (Base urlPath)), ?_, rfl⟩
    simp [downloadFileHandler, hst, hex, osOpen, ho, hn, hc]
  · intro hf hnul hex hlen hkeys
    have hw := statWalk_notExist _ fs none hlen hkeys
    have hst : osStat fs f.statErr (downloadPath dir urlPath) = .error StatError.notExist := by
      unfold osStat
      rw [hf]
      simp only [if_neg hnul, hex, Bool.false_eq_true, if_false, hw]
    simp [downloadFileHandler, hst, IsNotExist]
  · intro e hst hex
    cases ho : f.openErr <;> simp [downloadFileHandler, hst, IsNotExist, osOpen, ho, hex]
  · simp only [downloadFileHandler]
    repeat' split
    all_goals rfl

/-- The download of `a.txt` and of a missing name from the example filesystem. -/
theorem download_existing_or_missing_witness :
    (∃ ct, downloadFileHandler (fun _ => "text/plain") answerDir fsDemo noFaults
        "/answer/a.txt".toList = (DownloadReply.file ct [7], fsDemo) ∧
          (DownloadReply.file ct [7]).status = 200) ∧
    downloadFileHandler (fun _ => "text/plain") answerDir fsDemo noFaults
        "/answer/b.txt".toList = (DownloadReply.error 404 "File not found", fsDemo) ∧
    downloadFileHandler (fun _ => "text/plain") answerDir fsBlocked noFaults
        "/answer/b.txt".toList = (DownloadReply.error 500 "Failed to open file", fsBlocked) :=
  ⟨(download_existing_or_missing _ answerDir fsDemo noFaults "/answer/a.txt".toList).1 [7]
      (by decide) rfl rfl,
   (download_existing_or_missing _ answerDir fsDemo noFaults "/answer/b.txt".toList).2.1
      rfl (by decide) (by decide) (by decide) (by decide),
   (download_existing_or_missing _ answerDir fsBlocked noFaults "/answer/b.txt".toList).2.2.1
      "not a directory" (by decide) (by decide)⟩

set_option maxRecDepth 8000 in
/-- C8 as stated fails: nothing exists at the path of the download, and the
answer is 500 with "Failed to open file", not 404, when a regular file stands
at the path of the category directory, when the name has 300 characters, when
the name has a NUL byte and when `os.Stat` is refused. -/
theorem download_missing_name_answers_500 :
    (existsAt fsBlocked (downloadPath answerDir "/answer/b.txt".toList) = false ∧
      downloadFileHandler (fun _ => "text/plain") answerDir fsBlocked noFaults
        "/answer/b.txt".toList = (DownloadReply.error 500 "Failed to open file", fsBlocked)) ∧
    (existsAt fsDemo (downloadPath answerDir longUrlPath) = false ∧
      downloadFileHandler (fun _ => "text/plain") answerDir fsDemo noFaults longUrlPath
        = (DownloadReply.error 500 "Failed to open file", fsDemo)) ∧
    (existsAt fsDemo (downloadPath answerDir nulUrlPath) = false ∧
      downloadFileHandler (fun _ => "text/plain") answerDir fsDemo noFaults nulUrlPath
        = (DownloadReply.error 500 "Failed to open file", fsDemo)) ∧
    (existsAt fsDemo (downloadPath answerDir "/answer/b.txt".toList) = false ∧
      downloadFileHandler (fun _ => "text/plain") answerDir fsDemo statDenied
        "/answer/b.txt".toList = (DownloadReply.error 500 "Failed to open file", fsDemo)) := by
  decide

/-- C3 (amended): a POST commit whose non-empty identifier gives a well-formed
staging pattern that matches no file is answered, by the avatar handler and by
the generic handler, with success=false and "File not found"; when the pattern
is malformed the answer is success=false with the error of `Glob`; in both
cases the filesystem is unchanged. -/
theorem commit_unknown_identifier {Img : Type} (codec : Codec Img) (dir : Str) (fs : FS)
    (f : Faults) (r : CommitRequest) (req : setRequest)
    (hm : r.Method = "POST") (hb : r.Body = .ok req) (hu : req.FileUUID ≠ []) :
    (Glob fs (Join uploadDir (req.FileUUID ++ ['*'])) = .ok [] →
      setAvatarHandler codec fs f r = (⟨false, "File not found"⟩, fs) ∧
      setFileHandler dir fs f r = (⟨false, "File not found"⟩, fs)) ∧
    (∀ e, Glob fs (Join uploadDir (req.FileUUID ++ ['*'])) = .error e →
      setAvatarHandler codec fs f r = (⟨false, e⟩, fs) ∧
      setFileHandler dir fs f r = (⟨false, e⟩, fs)) := by
  refine ⟨fun hg => ⟨?_, ?_⟩, fun e hg => ⟨?_, ?_⟩⟩
  · simp [setAvatarHandler, hm, hb, hu, hg, pngExt_ne_nil]
  · simp [setFileHandler, hm, hb, hu, hg, txtExt_ne_nil]
  · simp [setAvatarHandler, hm, hb, hu, hg, pngExt_ne_nil]
  · simp [setFileHandler, hm, hb, hu, hg, txtExt_ne_nil]

/-- A commit of an identifier that nothing is staged under, in the example
filesystem. -/
theorem commit_unknown_identifier_witness :
    setAvatarHandler demoCodec fsDemo noFaults (post "zz" "a")
        = (⟨false, "File not found"⟩, fsDemo) ∧
      setFileHandler testDir fsDemo noFaults (post "zz" "a")
        = (⟨false, "File not found"⟩, fsDemo) :=
  (commit_unknown_identifier demoCodec testDir fsDemo noFaults (post "zz" "a")
    ⟨"zz".toList, "a".toList⟩ rfl rfl (by decide)).1 (by decide)

/-- C3 as stated fails: the identifier `[` matches no staged file, and the
handlers answer with the pattern error of `Glob`, not with "File not found". -/
theorem malformed_identifier_not_reported_missing :
    Glob fsDemo (Join uploadDir ("[".toList ++ ['*'])) = .error ErrBadPattern ∧
    setAvatarHandler demoCodec fsDemo noFaults (post "[" "a")
      = (⟨false, "syntax error in pattern"⟩, fsDemo) ∧
    setFileHandler answerDir fsDemo noFaults (post "[" "a")
      = (⟨false, "syntax error in pattern"⟩, fsDemo) := by
  decide

/-! ## The paths that `Glob` returns are clean -/

theorem Join_clean (dir name : Str) (h : dir ≠ []) : Clean (Join dir name) = Join dir name := by
  simp only [Join, if_neg h, Clean_idem]

theorem globNames_mem (dir pattern : Str) (names : List Str) :
    ∀ (m l : List Str), globNames dir pattern names m = .ok l →
      ∀ p ∈ l, p ∈ m ∨ ∃ n ∈ names, p = Join dir n ∧ Match pattern n = .ok true := by
  induction names with
  | nil =>
    intro m l h p hp
    simp only [globNames, Except.ok.injEq] at h
    subst h; left; exact hp
  | cons n ns ih =>
    intro m l h p hp
    simp only [globNames] at h
    split at h
    · simp at h
    · rename_i hmatch
      rcases ih _ l h p hp with h1 | ⟨x, hx, h2, h3⟩
      · simp only [List.mem_append, List.mem_singleton] at h1
        rcases h1 with h1 | h1
        · left; exact h1
        · right; exact ⟨n, by simp, h1, hmatch⟩
      · right; exact ⟨x, by simp [hx], h2, h3⟩
    · rcases ih _ l h p hp with h1 | ⟨x, hx, h2, h3⟩
      · left; exact h1
      · right; exact ⟨x, by simp [hx], h2, h3⟩

theorem globDir_mem (fs : FS) (dir pattern : Str) (m l : List Str)
    (h : globDir fs dir pattern m = .ok l) :
    ∀ p ∈ l, p ∈ m ∨ (isDirAt fs dir = true ∧
      ∃ n ∈ Readdirnames fs dir, p = Join dir n ∧ Match pattern n = .ok true) := by
  intro p hp
  unfold globDir at h
  split at h
  · rename_i hd
    rcases globNames_mem _ _ _ _ _ h p hp with h1 | h1
    · left; exact h1
    · right; exact ⟨hd, h1⟩
  · simp only [Except.ok.injEq] at h
    subst h; left; exact hp

theorem globEach_clean (fs : FS) (file : Str) (ds : List Str) :
    ∀ (m l : List Str), (∀ d ∈ ds, d ≠ []) → (∀ p ∈ m, Clean p = p) →
      globEach fs file ds m = .ok l → ∀ p ∈ l, Clean p = p := by
  induction ds with
  | nil =>
    intro m l _ hm h
    simp only [globEach, Except.ok.injEq] at h
    subst h; exact hm
  | cons d ds ih =>
    intro m l hds hm h
    simp only [globEach] at h
    split at h
    · simp at h
    · rename_i m1 hm1
      apply ih m1 l (fun x hx => hds x (by simp [hx])) _ h
      intro p hp
      rcases globDir_mem fs d file m m1 hm1 p hp with h1 | ⟨_, n, _, h2, _⟩
      · exact hm p h1
      · rw [h2]; exact Join_clean d n (hds d (by simp))

theorem Split_no_slash (p : Str) (h : '/' ∉ p) : Split p = ([], p) := by
  cases p with
  | nil => rfl
  | cons c cs =>
    simp only [List.mem_cons, not_or] at h
    unfold Split
    rw [if_neg h.2, if_neg (fun hc => h.1 hc.symm)]

theorem Split_fst_slash (p : Str) : '/' ∈ p → ∃ d, (Split p).1 = d ++ ['/'] := by
  induction p with
  | nil => intro h; simp at h
  | cons c cs ih =>
    intro h
    unfold Split
    by_cases hcs : '/' ∈ cs
    · rw [if_pos hcs]
      obtain ⟨d, hd⟩ := ih hcs
      exact ⟨c :: d, by simp [hd]⟩
    · rw [if_neg hcs]
      simp only [List.mem_cons] at h
      rcases h with h | h
      · rw [if_pos h.symm]
        subst h
        exact ⟨[], rfl⟩
      · exact absurd h hcs

theorem Split_fst (p : Str) : (Split p).1 = [] ∨ ∃ d, (Split p).1 = d ++ ['/'] := by
  by_cases h : '/' ∈ p
  · right; exact Split_fst_slash p h
  · left; rw [Split_no_slash p h]

theorem cleanGlobPath_ne_nil (p : Str) : cleanGlobPath (Split p).1 ≠ [] := by
  unfold cleanGlobPath
  split
  · simp
  · split
    · assumption
    · rename_i h1 h2
      rcases Split_fst p with h | ⟨d, hd⟩
      · exact absurd h h1
      · rw [hd] at h2 ⊢
        simp only [List.dropLast_concat]
        intro h0
        rw [h0] at h2
        exact h2 rfl

theorem globWithLimit_clean (fs : FS) (fuel : Nat) :
    ∀ (pattern : Str) (l : List Str), pattern ≠ [] →
      globWithLimit fs fuel pattern = .ok l → ∀ p ∈ l, p = pattern ∨ Clean p = p := by
  induction fuel with
  | zero => intro pattern l _ h; simp [globWithLimit] at h
  | succ fuel ih =>
    intro pattern l hc h
    simp only [globWithLimit] at h
    split at h
    · simp at h
    · split at h
      · split at h
        · simp only [Except.ok.injEq] at h
          subst h
          intro p hp
          simp only [List.mem_singleton] at hp
          left; exact hp
        · simp only [Except.ok.injEq] at h
          subst h
          intro p hp; simp at hp
      · split at h
        · intro p hp
          rcases globDir_mem fs _ _ _ _ h p hp with h1 | ⟨_, n, _, h2, _⟩
          · simp at h1
          · right
            rw [h2]
            exact Join_clean _ _ (cleanGlobPath_ne_nil pattern)
        · split at h
          · simp at h
          · split at h
            · simp at h
            · rename_i m hm
              intro p hp
              right
              refine globEach_clean fs _ m [] l ?_ (by simp) h p hp
              intro d hd
              rcases ih _ m (cleanGlobPath_ne_nil pattern) hm d hd with h1 | h1
              · rw [h1]; exact cleanGlobPath_ne_nil pattern
              · intro h0; rw [h0] at h1; exact absurd h1 (by decide)

/-- Every path that `Glob` returns for a cleaned pattern is itself clean. -/
theorem Glob_clean (fs : FS) (pattern : Str) (l : List Str) (hc : Clean pattern = pattern)
    (h : Glob fs pattern = .ok l) : ∀ p ∈ l, Clean p = p := by
  intro p hp
  have hne : pattern ≠ [] := by
    intro h0; rw [h0] at hc; exact absurd hc (by decide)
  rcases globWithLimit_clean fs _ pattern l hne h p hp with h1 | h1
  · rw [h1]; exact hc
  · exact h1

/-! ## What `MoveFile` and `convertToPNG` leave behind -/

theorem msg_first (a b e1 e2 : String) (ha : a.data ≠ []) (hb : b.data ≠ [])
    (h : a ++ e1 = b ++ e2) : a.data.head? = b.data.head? := by
  have h1 := congrArg String.data h
  rw [String.data_append, String.data_append] at h1
  cases hx : a.data with
  | nil => exact absurd hx ha
  | cons x xs =>
    cases hy : b.data with
    | nil => exact absurd hy hb
    | cons y ys =>
      rw [hx, hy] at h1
      simp only [List.cons_append, List.cons.injEq] at h1
      simp [h1.1]

theorem nodeAt_store (fs : FS) (k p : Str) (n : Node) :
    nodeAt (store fs k n) p = if k = Clean p then some n else nodeAt fs p := by
  simp only [nodeAt, lookup_store]

theorem nodeAt_erase (fs : FS) (k p : Str) :
    nodeAt (erase fs k) p = if k = Clean p then none else nodeAt fs p := by
  simp only [nodeAt, lookup_erase]

theorem osRemove_ok (fs fs1 : FS) (fault : Option String) (p : Str)
    (h : osRemove fs fault p = .ok fs1) : fs1 = erase fs (Clean p) := by
  unfold osRemove at h
  split at h
  · simp at h
  · split at h
    · simp at h
    · simp only [Except.ok.injEq] at h; exact h.symm
    · split at h
      · simp only [Except.ok.injEq] at h; exact h.symm
      · simp at h

theorem osCreate_ok (fs fs1 : FS) (fault : Option String) (p : Str)
    (h : osCreate fs fault p = .ok fs1) : fs1 = store fs (Clean p) (Node.file []) := by
  unfold osCreate at h
  split at h
  · simp at h
  · split at h
    · simp at h
    · split at h
      · simp only [Except.ok.injEq] at h; exact h.symm
      · simp at h

/-- The outcomes of `MoveFile`: the four reported failures and success, each
with what then stands at the source and destination paths. -/
theorem MoveFile_cases (fs fs1 : FS) (f : Faults) (src dst : Str) (r : Option String)
    (h : MoveFile fs f src dst = (r, fs1)) :
    (∃ e, r = some ("couldn't open source file: " ++ e) ∧ fs1 = fs) ∨
    (∃ e, r = some ("couldn't open dest file: " ++ e) ∧ fs1 = fs) ∨
    (∃ e b, r = some ("writing to output file failed: " ++ e) ∧
      nodeAt fs1 dst = some (Node.file b)) ∨
    (∃ e c, r = some ("fail removing original file: " ++ e) ∧
      nodeAt fs1 src = some (Node.file c) ∧ nodeAt fs1 dst = some (Node.file c)) ∨
    (r = none ∧ ∃ c, nodeAt (store fs (Clean dst) (Node.file [])) src = some (Node.file c) ∧
      fs1 = erase (store (store fs (Clean dst) (Node.file [])) (Clean dst) (Node.file c))
        (Clean src)) := by
  unfold MoveFile at h
  split at h
  · rename_i e _
    simp only [Prod.mk.injEq] at h
    left; exact ⟨e, h.1.symm, h.2.symm⟩
  · split at h
    · rename_i e _
      simp only [Prod.mk.injEq] at h
      right; left; exact ⟨e, h.1.symm, h.2.symm⟩
    · rename_i fsc hcreate
      have hfsc := osCreate_ok _ _ _ _ hcreate
      subst hfsc
      split at h
      · rename_i e fs2 hcopy
        simp only [Prod.mk.injEq] at h
        right; right; left
        obtain ⟨h1, h2⟩ := h
        subst h2
        unfold ioCopy at hcopy
        split at hcopy
        · rename_i content _
          unfold writeBytes at hcopy
          split at hcopy
          · simp at hcopy
          · rename_i n e1 _
            simp only [Prod.mk.injEq, Option.some.injEq] at hcopy
            refine ⟨e, content.take n, h1.symm, ?_⟩
            rw [← hcopy.2, nodeAt_store, if_pos rfl]
        · simp only [Prod.mk.injEq, Option.some.injEq] at hcopy
          refine ⟨e, [], h1.symm, ?_⟩
          rw [← hcopy.2, nodeAt_store, if_pos rfl]
      · rename_i fs2 hcopy
        unfold ioCopy at hcopy
        split at hcopy
        · rename_i content hsrc
          unfold writeBytes at hcopy
          split at hcopy
          · simp only [Prod.mk.injEq, true_and] at hcopy
            subst hcopy
            have hdst : nodeAt (store (store fs (Clean dst) (Node.file [])) (Clean dst)
                (Node.file content)) dst = some (Node.file content) := by
              rw [nodeAt_store, if_pos rfl]
            have hsrc2 : nodeAt (store (store fs (Clean dst) (Node.file [])) (Clean dst)
                (Node.file content)) src = some (Node.file content) := by
              rw [nodeAt_store]
              split
              · rfl
              · exact hsrc
            split at h
            · rename_i e _
              simp only [Prod.mk.injEq] at h
              right; right; right; left
              obtain ⟨h1, h2⟩ := h
              subst h2
              exact ⟨e, content, h1.symm, hsrc2, hdst⟩
            · rename_i fs3 hrm
              simp only [Prod.mk.injEq] at h
              right; right; right; right
              have := osRemove_ok _ _ _ _ hrm
              exact ⟨h.1.symm, content, hsrc, by rw [← h.2, this]⟩
          · simp at hcopy
        · simp at hcopy

theorem prefix_ne (a b e1 e2 : String) (ha : a.data ≠ []) (hb : b.data ≠ [])
    (h : a.data.head? ≠ b.data.head?) : a ++ e1 ≠ b ++ e2 :=
  fun h1 => h (msg_first a b e1 e2 ha hb h1)

/-- A successful generic commit went through every step of the handler. -/
theorem setFileHandler_success (dir : Str) (fs : FS) (f : Faults) (r : CommitRequest)
    (h : (setFileHandler dir fs f r).1.Success = true) :
    ∃ req src rest fs1, r.Method = "POST" ∧ r.Body = .ok req ∧ req.FileUUID ≠ [] ∧
      Glob fs (Join uploadDir (req.FileUUID ++ ['*'])) = .ok (src :: rest) ∧
      osMkdirAll fs f.mkdirErr dir = .ok fs1 ∧
      MoveFile fs1 f src (Join dir (req.FileName ++ txtExt))
        = (none, (setFileHandler dir fs f r).2) := by
  by_cases hm : r.Method = "POST"
  swap
  · simp [setFileHandler, hm] at h
  cases hb : r.Body with
  | error e => simp [setFileHandler, hm, hb] at h
  | ok req =>
    by_cases hu : req.FileUUID = []
    · simp [setFileHandler, hm, hb, hu] at h
    cases hg : Glob fs (Join uploadDir (req.FileUUID ++ ['*'])) with
    | error e => simp [setFileHandler, hm, hb, hu, hg, txtExt_ne_nil] at h
    | ok l =>
      cases l with
      | nil => simp [setFileHandler, hm, hb, hu, hg, txtExt_ne_nil] at h
      | cons src rest =>
        cases hmk : osMkdirAll fs f.mkdirErr dir with
        | error e => simp [setFileHandler, hm, hb, hu, hg, hmk, txtExt_ne_nil] at h
        | ok fs1 =>
          have hmove := setFileHandler_move dir fs fs1 f r req src rest hm hb hu hg hmk
          rw [hmove] at h ⊢
          refine ⟨req, src, rest, fs1, hm, by first | exact hb | rfl, hu,
            hg, by first | exact hmk | rfl, ?_⟩
          cases hmv : MoveFile fs1 f src (Join dir (req.FileName ++ txtExt)) with
          | mk res fs2 =>
            cases res with
            | some e => rw [hmv] at h; simp at h
            | none => rfl

/-- C1 (amended): when the generic commit handler answers success=true and the
destination path is not the path of the matched staged file, the file at the
destination holds exactly the bytes the matched staged file held before the
request. -/
theorem commit_moves_bytes (dir : Str) (fs : FS) (f : Faults) (r : CommitRequest)
    (req : setRequest) (src : Str) (rest : List Str)
    (hb : r.Body = .ok req)
    (hg : Glob fs (Join uploadDir (req.FileUUID ++ ['*'])) = .ok (src :: rest))
    (hs : (setFileHandler dir fs f r).1.Success = true)
    (hne : src ≠ Join dir (req.FileName ++ txtExt)) :
    ∃ content, nodeAt fs src = some (Node.file content) ∧
      nodeAt (setFileHandler dir fs f r).2 (Join dir (req.FileName ++ txtExt))
        = some (Node.file content) := by
  obtain ⟨req1, src1, rest1, fs1, _, hb1, _, hg1, hmk, hmv⟩ := setFileHandler_success dir fs f r hs
  rw [hb] at hb1
  simp only [Except.ok.injEq] at hb1
  subst hb1
  rw [hg] at hg1
  simp only [Except.ok.injEq, List.cons.injEq] at hg1
  obtain ⟨hsrc, _⟩ := hg1
  subst hsrc
  have hsrcClean : Clean src = src :=
    Glob_clean fs _ _ (Join_clean _ _ (by decide)) hg src (by simp)
  have hdstClean : Clean (Join dir (req.FileName ++ txtExt)) = Join dir (req.FileName ++ txtExt) := by
    unfold Join
    split
    · rw [if_neg (append_txtExt_ne_nil _), Clean_idem]
    · rw [Clean_idem]
  rcases MoveFile_cases _ _ _ _ _ _ hmv with ⟨e, h1, _⟩ | ⟨e, h1, _⟩ | ⟨e, b, h1, _⟩ |
    ⟨e, c, h1, _⟩ | ⟨_, c, hc, hfs⟩
  · simp at h1
  · simp at h1
  · simp at h1
  · simp at h1
  · rw [nodeAt_store, hsrcClean, hdstClean, if_neg (Ne.symm hne)] at hc
    refine ⟨c, ?_, ?_⟩
    · unfold nodeAt at hc ⊢
      exact osMkdirAll_file fs fs1 _ _ hmk _ _ hc
    · rw [hfs, nodeAt_erase, hsrcClean, hdstClean, if_neg hne, nodeAt_store, hdstClean,
        if_pos rfl]

/-- The commit of the staged `u2.txt` as answer `t1` in the example filesystem. -/
theorem commit_moves_bytes_witness :
    ∃ content, nodeAt fsDemo "files/upload/u2.txt".toList = some (Node.file content) ∧
      nodeAt (setFileHandler answerDir fsDemo noFaults (post "u2" "t1")).2
        (Join answerDir ("t1".toList ++ txtExt)) = some (Node.file content) :=
  commit_moves_bytes answerDir fsDemo noFaults (post "u2" "t1") ⟨"u2".toList, "t1".toList⟩
    "files/upload/u2.txt".toList [] rfl (by decide) (by decide) (by decide)

/-- C1 as stated fails: a commit whose name leads back to the staged file
itself answers success=true, and afterwards no file stands at the destination
path, although the matched staged file held three bytes. -/
theorem commit_onto_staged_file_loses_it :
    (setFileHandler answerDir fsDemo noFaults (post "u2" "../upload/u2")).1 = ⟨true, ""⟩ ∧
    Glob fsDemo (Join uploadDir ("u2".toList ++ ['*'])) = .ok ["files/upload/u2.txt".toList] ∧
    nodeAt fsDemo "files/upload/u2.txt".toList = some (Node.file [4, 5, 6]) ∧
    nodeAt (setFileHandler answerDir fsDemo noFaults (post "u2" "../upload/u2")).2
      (Join answerDir ("../upload/u2".toList ++ txtExt)) = none := by
  decide

/-- C5: a commit with an empty `file_name` is not rejected.  The generic
handler moves the staged file to `files/answer/.txt` and the avatar handler
writes `files/avatar/.png`, both answering success=true, because the test for
an empty name is made after the extension was appended. -/
theorem empty_file_name_not_rejected :
    (setFileHandler answerDir fsDemo noFaults (post "u2" "")).1 = ⟨true, ""⟩ ∧
    nodeAt (setFileHandler answerDir fsDemo noFaults (post "u2" "")).2
      "files/answer/.txt".toList = some (Node.file [4, 5, 6]) ∧
    (setAvatarHandler demoCodec fsDemo noFaults (post "u3" "")).1 = ⟨true, ""⟩ ∧
    nodeAt (setAvatarHandler demoCodec fsDemo noFaults (post "u3" "")).2
      "files/avatar/.png".toList = some (Node.file [137, 8, 9]) := by
  decide

/-- C7 (amended): when the move of the generic commit fails in its copy step,
the handler reports that error and a file stands at the destination path
(the one `os.Create` made, with what was written before the failure); when it
fails in its delete step, source and destination are both present with the
same bytes; and the two failures are reported with different messages. -/
theorem move_failure_states (dir : Str) (fs fs1 fs2 : FS) (f : Faults) (r : CommitRequest)
    (req : setRequest) (src : Str) (rest : List Str) (msg : String)
    (hm : r.Method = "POST") (hb : r.Body = .ok req) (hu : req.FileUUID ≠ [])
    (hg : Glob fs (Join uploadDir (req.FileUUID ++ ['*'])) = .ok (src :: rest))
    (hmk : osMkdirAll fs f.mkdirErr dir = .ok fs1)
    (hmv : MoveFile fs1 f src (Join dir (req.FileName ++ txtExt)) = (some msg, fs2)) :
    setFileHandler dir fs f r = (⟨false, msg⟩, fs2) ∧
    (∀ e, msg = "writing to output file failed: " ++ e →
      ∃ b, nodeAt fs2 (Join dir (req.FileName ++ txtExt)) = some (Node.file b)) ∧
    (∀ e, msg = "fail removing original file: " ++ e →
      ∃ c, nodeAt fs2 src = some (Node.file c) ∧
        nodeAt fs2 (Join dir (req.FileName ++ txtExt)) = some (Node.file c)) ∧
    (∀ e1 e2 : String,
      "writing to output file failed: " ++ e1 ≠ "fail removing original file: " ++ e2) := by
  refine ⟨?_, ?_, ?_, ?_⟩
  · rw [setFileHandler_move dir fs fs1 f r req src rest hm hb hu hg hmk, hmv]
  · intro e he
    subst he
    rcases MoveFile_cases _ _ _ _ _ _ hmv with ⟨e0, h1, _⟩ | ⟨e0, h1, _⟩ | ⟨e0, b, _, h2⟩ |
      ⟨e0, c, h1, _⟩ | ⟨h1, _⟩
    · simp only [Option.some.injEq] at h1
      exact absurd h1 (prefix_ne _ _ _ _ (by decide) (by decide) (by decide))
    · simp only [Option.some.injEq] at h1
      exact absurd h1 (prefix_ne _ _ _ _ (by decide) (by decide) (by decide))
    · exact ⟨b, h2⟩
    · simp only [Option.some.injEq] at h1
      exact absurd h1 (prefix_ne _ _ _ _ (by decide) (by decide) (by decide))
    · simp at h1
  · intro e he
    subst he
    rcases MoveFile_cases _ _ _ _ _ _ hmv with ⟨e0, h1, _⟩ | ⟨e0, h1, _⟩ | ⟨e0, b, h1, _⟩ |
      ⟨e0, c, _, h2, h3⟩ | ⟨h1, _⟩
    · simp only [Option.some.injEq] at h1
      exact absurd h1 (prefix_ne _ _ _ _ (by decide) (by decide) (by decide))
    · simp only [Option.some.injEq] at h1
      exact absurd h1 (prefix_ne _ _ _ _ (by decide) (by decide) (by decide))
    · simp only [Option.some.injEq] at h1
      exact absurd h1 (prefix_ne _ _ _ _ (by decide) (by decide) (by decide))
    · exact ⟨c, h2, h3⟩
    · simp at h1
  · intro e1 e2
    exact prefix_ne _ _ _ _ (by decide) (by decide) (by decide)

/-- The commit of the staged `u2.txt` when the staged file cannot be removed. -/
theorem move_failure_states_witness :
    setFileHandler answerDir fsDemo removeDenied (post "u2" "t1")
      = (⟨false, "fail removing original file: permission denied"⟩,
          (MoveFile fsDemo removeDenied "files/upload/u2.txt".toList
            "files/answer/t1.txt".toList).2) ∧
    ∃ c, nodeAt (MoveFile fsDemo removeDenied "files/upload/u2.txt".toList
            "files/answer/t1.txt".toList).2 "files/upload/u2.txt".toList = some (Node.file c) ∧
      nodeAt (MoveFile fsDemo removeDenied "files/upload/u2.txt".toList
            "files/answer/t1.txt".toList).2 "files/answer/t1.txt".toList = some (Node.file c) :=
  have h := move_failure_states answerDir fsDemo fsDemo
    (MoveFile fsDemo removeDenied "files/upload/u2.txt".toList "files/answer/t1.txt".toList).2
    removeDenied (post "u2" "t1") ⟨"u2".toList, "t1".toList⟩ "files/upload/u2.txt".toList []
    "fail removing original file: permission denied" rfl rfl (by decide) (by decide)
    (by decide) (by decide)
  ⟨h.1, h.2.2.1 "permission denied" (by decide)⟩

/-- C7 as stated fails: the copy of the generic commit stops on a full disk,
the handler reports the copy failure, and a file holding the one byte written
stands at the destination path. -/
theorem copy_failure_leaves_destination :
    (setFileHandler answerDir fsDemo diskFull (post "u2" "t1")).1
      = ⟨false, "writing to output file failed: no space left on device"⟩ ∧
    nodeAt fsDemo "files/answer/t1.txt".toList = none ∧
    nodeAt (setFileHandler answerDir fsDemo diskFull (post "u2" "t1")).2
      "files/answer/t1.txt".toList = some (Node.file [4]) := by
  decide

/-- C6: when the staged file matched by an avatar commit does not decode as an
image, the handler answers success=false with the error of the decoder, no
file is created at the destination (a file already there keeps its bytes) and
the staged file is not removed. -/
theorem avatar_decode_failure {Img : Type} (codec : Codec Img) (fs fs1 : FS) (f : Faults)
    (r : CommitRequest) (req : setRequest) (src : Str) (rest : List Str) (node : Node)
    (e : String)
    (hm : r.Method = "POST") (hb : r.Body = .ok req) (hu : req.FileUUID ≠ [])
    (hg : Glob fs (Join uploadDir (req.FileUUID ++ ['*'])) = .ok (src :: rest))
    (hmk : osMkdirAll fs f.mkdirErr avatarDir = .ok fs1)
    (hop : f.openErr = none)
    (hsrc : nodeAt fs src = some node)
    (hdec : decodeNode codec (some node) = .error e) :
    (setAvatarHandler codec fs f r).1 = ⟨false, e⟩ ∧
    (∀ b, nodeAt (setAvatarHandler codec fs f r).2 (Join avatarDir (req.FileName ++ pngExt))
          = some (Node.file b) ↔
        nodeAt fs (Join avatarDir (req.FileName ++ pngExt)) = some (Node.file b)) ∧
    nodeAt (setAvatarHandler codec fs f r).2 src = some node := by
  have hsrc1 : nodeAt fs1 src = some node := osMkdirAll_keeps fs fs1 _ _ hmk _ _ hsrc
  have hex : existsAt fs1 src = true := existsAt_of_nodeAt _ _ _ hsrc1
  have hconv : convertToPNG codec fs1 f src (Join avatarDir (req.FileName ++ pngExt))
      = (some e, fs1) := by
    simp [convertToPNG, osOpen, hop, hex, hsrc1, hdec]
  rw [setAvatarHandler_convert codec fs fs1 f r req src rest hm hb hu hg hmk, hconv]
  refine ⟨rfl, ?_, hsrc1⟩
  intro b
  constructor
  · intro h
    exact osMkdirAll_file fs fs1 _ _ hmk _ _ h
  · intro h
    exact osMkdirAll_keeps fs fs1 _ _ hmk _ _ h

/-- An avatar commit of the staged text file `u2.txt`, which is no image. -/
theorem avatar_decode_failure_witness :
    (setAvatarHandler demoCodec fsDemo noFaults (post "u2" "a")).1
      = ⟨false, "image: unknown format"⟩ ∧
    (∀ b, nodeAt (setAvatarHandler demoCodec fsDemo noFaults (post "u2" "a")).2
          (Join avatarDir ("a".toList ++ pngExt)) = some (Node.file b) ↔
        nodeAt fsDemo (Join avatarDir ("a".toList ++ pngExt)) = some (Node.file b)) ∧
    nodeAt (setAvatarHandler demoCodec fsDemo noFaults (post "u2" "a")).2
      "files/upload/u2.txt".toList = some (Node.file [4, 5, 6]) :=
  avatar_decode_failure demoCodec fsDemo
    (store fsDemo "files/avatar".toList Node.dir) noFaults (post "u2" "a")
    ⟨"u2".toList, "a".toList⟩ "files/upload/u2.txt".toList [] (Node.file [4, 5, 6])
    "image: unknown format" rfl rfl (by decide) (by decide) (by decide) rfl (by decide)
    (by decide)

/-! ## `Match` and `Glob` on a pattern without metacharacters before the star -/

theorem scanLoop_lit (lit : Str) (h : ∀ c ∈ lit, LitChar c) :
    scanLoop false (lit ++ ['*']) = (lit, ['*']) := by
  induction lit with
  | nil => rfl
  | cons c cs ih =>
    have hc := h c (by simp)
    have ih1 := ih (fun x hx => h x (by simp [hx]))
    simp only [List.cons_append]
    unfold scanLoop
    rw [if_neg hc.2.2.2, if_neg hc.2.2.1]
    split
    · rw [ih1]
    · rw [if_neg hc.1, ih1]

theorem scanChunk_lit (lit : Str) (hne : lit ≠ []) (h : ∀ c ∈ lit, LitChar c) :
    scanChunk (lit ++ ['*']) = (false, lit, ['*']) := by
  cases lit with
  | nil => exact absurd rfl hne
  | cons c cs =>
    have hc := h c (by simp)
    have hd : dropStars ((c :: cs) ++ ['*']) = (false, (c :: cs) ++ ['*']) := by
      show dropStars (c :: (cs ++ ['*'])) = _
      simp only [dropStars, if_neg hc.1]
      rfl
    unfold scanChunk
    rw [hd]
    simp only
    rw [scanLoop_lit (c :: cs) h]

theorem matchChunkLoop_lit (lit : Str) (h : ∀ c ∈ lit, LitChar c) :
    ∀ (fuel : Nat) (s : Str) (failed : Bool), lit.length < fuel →
      matchChunkLoop fuel lit s failed =
        .ok (if failed = true ∨ ¬ lit <+: s then none else some (s.drop lit.length)) := by
  induction lit with
  | nil =>
    intro fuel s failed hf
    cases fuel with
    | zero => simp at hf
    | succ fuel => cases failed <;> simp [matchChunkLoop]
  | cons c cs ih =>
    intro fuel s failed hf
    have hc := h c (by simp)
    have ih1 := ih (fun x hx => h x (by simp [hx]))
    cases fuel with
    | zero => simp at hf
    | succ fuel =>
      have hf1 : cs.length < fuel := by simpa using hf
      unfold matchChunkLoop
      simp only [if_neg hc.2.2.1, if_neg hc.2.1, if_neg hc.2.2.2]
      cases failed with
      | true => simp [ih1 fuel s true hf1]
      | false =>
        cases s with
        | nil => simp [ih1 fuel [] true hf1]
        | cons d ds =>
          simp only [Bool.false_or, List.cons_ne_nil, decide_False, Bool.false_eq_true,
            if_false, List.tail_cons, List.head?_cons, ih1 fuel ds _ hf1]
          by_cases hdc : d = c
          · subst hdc
            simp [List.cons_prefix_cons]
          · have : ¬ (c :: cs) <+: (d :: ds) := by
              rw [List.cons_prefix_cons]
              exact fun hh => hdc hh.1.symm
            simp [hdc, this]

theorem matchChunk_lit (lit s : Str) (h : ∀ c ∈ lit, LitChar c) :
    matchChunk lit s = .ok (if lit <+: s then some (s.drop lit.length) else none) := by
  unfold matchChunk
  rw [matchChunkLoop_lit lit h _ s false (Nat.lt_succ_self _)]
  by_cases hp : lit <+: s <;> simp [hp]

/-- `Match` of a literal followed by a star: the name starts with the literal
and no slash follows. -/
theorem Match_lit_star (lit s : Str) (hne : lit ≠ []) (h : ∀ c ∈ lit, LitChar c) :
    Match (lit ++ ['*']) s =
      .ok (decide (lit <+: s) && !((s.drop lit.length).contains '/')) := by
  unfold Match
  have hlen : (lit ++ ['*']).length + 1 = (lit.length + 1) + 1 := by simp
  rw [hlen]
  unfold matchLoop
  rw [if_neg (by simp), scanChunk_lit lit hne h]
  simp only [Bool.false_eq_true, false_and, if_false, matchChunk_lit lit s h]
  by_cases hp : lit <+: s
  · simp only [hp, if_true, List.cons_ne_nil, ne_eq, not_false_eq_true, or_true, decide_True,
      Bool.true_and]
    unfold matchLoop
    rw [if_neg (by simp)]
    have : scanChunk ['*'] = (true, [], []) := by decide
    rw [this]
    simp
  · simp only [hp, if_false, decide_False, Bool.false_and]
    decide

theorem Split_append (d f : Str) (h : '/' ∉ f) : Split (d ++ '/' :: f) = (d ++ ['/'], f) := by
  induction d with
  | nil =>
    simp only [List.nil_append]
    unfold Split
    rw [if_neg h, if_pos rfl]
  | cons c cs ih =>
    simp only [List.cons_append]
    unfold Split
    rw [if_pos (by simp), ih]

theorem Clean_relative (p : Str) (hp : p ≠ []) (hr : p.head? ≠ some '/') :
    Clean p = if joinSlash (cleanSegs false (splitSlash p) []) = [] then ['.']
      else joinSlash (cleanSegs false (splitSlash p) []) := by
  cases p with
  | nil => exact absurd rfl hp
  | cons c cs =>
    have hc : c ≠ '/' := by simpa using hr
    simp [Clean, hc]

/-- Joining the staging directory with one proper path element changes
nothing. -/
theorem Join_upload_seg (s : Str) (h1 : s ≠ []) (h2 : s ≠ ['.']) (h3 : s ≠ ['.', '.'])
    (h4 : '/' ∉ s) : Join uploadDir s = uploadDir ++ '/' :: s := by
  unfold Join
  rw [if_neg (by decide)]
  have hsplit : splitSlash (uploadDir ++ '/' :: s) = ["files".toList, "upload".toList, s] := by
    have : uploadDir = "files".toList ++ '/' :: "upload".toList := by decide
    rw [this, List.append_assoc]
    simp only [List.cons_append]
    rw [splitSlash_append _ _ (by decide), splitSlash_append _ _ (by decide),
      splitSlash_of_no_slash _ h4]
  have hsteady : Steady false [] ["files".toList, "upload".toList, s] :=
    ⟨⟨by decide, by decide, by decide⟩, fun h => absurd h (by decide),
     ⟨by decide, by decide, by decide⟩, fun h => absurd h (by decide),
     ⟨h1, h2, h4⟩, fun h => absurd h h3, trivial⟩
  have hu : uploadDir = 'f' :: "iles/upload".toList := by decide
  rw [Clean_relative (uploadDir ++ '/' :: s) (by simp) (by rw [hu]; simp), hsplit,
    cleanSegs_steady _ _ _ hsteady]
  simp only [List.reverse_nil, List.nil_append, joinSlash]
  rw [if_neg (by simp)]
  rfl

theorem stripPrefix_some (p : Str) : ∀ (k n : Str), stripPrefix p k = some n → k = p ++ n := by
  induction p with
  | nil => intro k n h; simp only [stripPrefix, Option.some.injEq] at h; simp [h]
  | cons c cs ih =>
    intro k n h
    cases k with
    | nil => simp [stripPrefix] at h
    | cons d ds =>
      simp only [stripPrefix] at h
      split at h
      · rename_i hcd
        rw [hcd, ih ds n h]; rfl
      · simp at h

theorem mem_insertName (n x : Str) (l : List Str) : x ∈ insertName n l → x = n ∨ x ∈ l := by
  induction l with
  | nil => intro h; simp only [insertName, List.mem_singleton] at h; left; exact h
  | cons m ms ih =>
    intro h
    unfold insertName at h
    split at h
    · right; exact h
    · split at h
      · simp only [List.mem_cons] at h ⊢
        exact h
      · simp only [List.mem_cons] at h ⊢
        rcases h with h | h
        · right; left; exact h
        · rcases ih h with h | h
          · left; exact h
          · right; right; exact h

theorem mem_sortNames (l : List Str) (x : Str) : x ∈ sortNames l → x ∈ l := by
  induction l with
  | nil => intro h; simp [sortNames] at h
  | cons n ns ih =>
    intro h
    simp only [sortNames, List.foldr_cons] at h
    rcases mem_insertName _ _ _ h with h | h
    · simp [h]
    · simp [ih h]

/-- A name listed in the staging directory is a proper path element and names
an entry of the filesystem. -/
theorem Readdirnames_upload (fs : FS) (n : Str) (h : n ∈ Readdirnames fs uploadDir) :
    (n ≠ [] ∧ n ≠ ['.'] ∧ n ≠ ['.', '.'] ∧ '/' ∉ n) ∧
      lookup fs (uploadDir ++ '/' :: n) ≠ none := by
  unfold Readdirnames at h
  have h1 := mem_sortNames _ _ h
  rw [List.mem_filterMap] at h1
  obtain ⟨⟨k, node⟩, hmem, hchild⟩ := h1
  have hcl : Clean uploadDir = uploadDir := by decide
  rw [hcl] at hchild
  unfold childName at hchild
  split at hchild
  · simp at hchild
  · rename_i m hstrip
    split at hchild
    · simp at hchild
    · rename_i hgood
      simp only [Option.some.injEq] at hchild
      subst hchild
      simp only [not_or] at hgood
      have hk := stripPrefix_some _ _ _ hstrip
      have hpre : dirPrefix uploadDir = uploadDir ++ ['/'] := by decide
      rw [hpre] at hk
      simp only [List.append_assoc, List.singleton_append] at hk
      refine ⟨⟨hgood.1, hgood.2.2.1, hgood.2.2.2, hgood.2.1⟩, ?_⟩
      rw [← hk]
      exact lookup_of_mem fs k node hmem

theorem globNames_ok (dir pattern : Str) (names : List Str)
    (h : ∀ n ∈ names, ∃ b, Match pattern n = .ok b) :
    ∀ m, ∃ l, globNames dir pattern names m = .ok l := by
  induction names with
  | nil => intro m; exact ⟨m, rfl⟩
  | cons n ns ih =>
    intro m
    obtain ⟨b, hb⟩ := h n (by simp)
    have ih1 := ih (fun x hx => h x (by simp [hx]))
    simp only [globNames, hb]
    cases b with
    | true => exact ih1 _
    | false => exact ih1 _

/-- The staging pattern of a plain identifier. -/
theorem Join_upload_pattern (id : Str) (h : PlainId id) :
    Join uploadDir (id ++ ['*']) = uploadDir ++ '/' :: (id ++ ['*']) := by
  apply Join_upload_seg
  · simp
  · intro h0
    have := congrArg List.getLast? h0
    simp at this
  · intro h0
    have := congrArg List.getLast? h0
    simp at this
  · simp only [List.mem_append, List.mem_singleton, not_or]
    exact ⟨fun hm => (h.2 _ hm).1 rfl, by decide⟩

/-- For a plain identifier `Glob` of the staging pattern succeeds, and every
path it returns names an existing entry of the staging directory whose name
starts with the identifier. -/
theorem Glob_plain (fs : FS) (id : Str) (h : PlainId id) :
    ∃ l, Glob fs (Join uploadDir (id ++ ['*'])) = .ok l ∧
      ∀ p ∈ l, ∃ n, p = uploadDir ++ '/' :: n ∧ id <+: n ∧ lookup fs p ≠ none := by
  rw [Join_upload_pattern id h]
  have hlitId : ∀ c ∈ id, LitChar c := fun c hc => (h.2 c hc).2
  have hlitPat : ∀ c ∈ uploadDir ++ '/' :: id, LitChar c := by
    intro c hc
    simp only [List.mem_append, List.mem_cons] at hc
    rcases hc with hc | hc | hc
    · revert c; decide
    · rw [hc]; decide
    · exact hlitId c hc
  have hpat : uploadDir ++ '/' :: (id ++ ['*']) = (uploadDir ++ '/' :: id) ++ ['*'] := by simp
  have hmatch0 : ∃ b, Match (uploadDir ++ '/' :: (id ++ ['*'])) [] = .ok b := by
    rw [hpat]
    exact ⟨_, Match_lit_star _ _ (by simp) hlitPat⟩
  have hmeta : hasMeta (uploadDir ++ '/' :: (id ++ ['*'])) = true := by
    simp [hasMeta]
  have hnoslash : '/' ∉ id ++ ['*'] := by
    simp only [List.mem_append, List.mem_singleton, not_or]
    exact ⟨fun hm => (h.2 _ hm).1 rfl, by decide⟩
  have hsplit := Split_append uploadDir (id ++ ['*']) hnoslash
  have hcg : cleanGlobPath (uploadDir ++ ['/']) = uploadDir := by decide
  have hmd : hasMeta uploadDir = false := by decide
  obtain ⟨b0, hb0⟩ := hmatch0
  have hglob : Glob fs (uploadDir ++ '/' :: (id ++ ['*']))
      = globDir fs uploadDir (id ++ ['*']) [] := by
    unfold Glob
    have h10 : (10000 : Nat) = 9999 + 1 := rfl
    rw [h10, globWithLimit]
    simp only [hb0, hmeta, hsplit, hcg, hmd, Bool.not_true, Bool.not_false, Bool.false_eq_true,
      if_false, if_true]
  rw [hglob]
  unfold globDir
  split
  · have hok := globNames_ok uploadDir (id ++ ['*']) (Readdirnames fs uploadDir)
      (fun n _ => ⟨_, Match_lit_star id n h.1 hlitId⟩) []
    obtain ⟨l, hl⟩ := hok
    refine ⟨l, hl, ?_⟩
    intro p hp
    rcases globNames_mem _ _ _ _ _ hl p hp with h1 | ⟨n, hn, hp1, hm⟩
    · simp at h1
    · obtain ⟨⟨g1, g2, g3, g4⟩, hlook⟩ := Readdirnames_upload fs n hn
      rw [Join_upload_seg n g1 g2 g3 g4] at hp1
      rw [Match_lit_star id n h.1 hlitId] at hm
      simp only [Except.ok.injEq, Bool.and_eq_true, decide_eq_true_eq] at hm
      exact ⟨n, hp1, hm.1, hp1 ▸ hlook⟩
  · exact ⟨[], rfl, by simp⟩

/-! ## The commit endpoints of `main` -/

theorem convertToPNG_ok {Img : Type} (codec : Codec Img) (fs fs2 : FS) (f : Faults)
    (src dst : Str) (h : convertToPNG codec fs f src dst = (none, fs2)) :
    ∃ out, fs2 = store (store fs (Clean dst) (Node.file [])) (Clean dst) (Node.file out) := by
  unfold convertToPNG at h
  split at h
  · simp at h
  · split at h
    · simp at h
    · rename_i img _
      split at h
      · simp at h
      · rename_i fsc hcreate
        have := osCreate_ok _ _ _ _ hcreate
        subst this
        unfold writeBytes at h
        split at h
        · simp only [Prod.mk.injEq, true_and] at h
          exact ⟨_, h.symm⟩
        · simp at h

/-- A successful avatar commit went through every step of the handler. -/
theorem setAvatarHandler_success {Img : Type} (codec : Codec Img) (fs : FS) (f : Faults)
    (r : CommitRequest) (h : (setAvatarHandler codec fs f r).1.Success = true) :
    ∃ req src rest fs1 fs2, r.Method = "POST" ∧ r.Body = .ok req ∧ req.FileUUID ≠ [] ∧
      Glob fs (Join uploadDir (req.FileUUID ++ ['*'])) = .ok (src :: rest) ∧
      osMkdirAll fs f.mkdirErr avatarDir = .ok fs1 ∧
      convertToPNG codec fs1 f src (Join avatarDir (req.FileName ++ pngExt)) = (none, fs2) ∧
      osRemove fs2 f.removeErr src = .ok (setAvatarHandler codec fs f r).2 := by
  by_cases hm : r.Method = "POST"
  swap
  · simp [setAvatarHandler, hm] at h
  cases hb : r.Body with
  | error e => simp [setAvatarHandler, hm, hb] at h
  | ok req =>
    by_cases hu : req.FileUUID = []
    · simp [setAvatarHandler, hm, hb, hu] at h
    cases hg : Glob fs (Join uploadDir (req.FileUUID ++ ['*'])) with
    | error e => simp [setAvatarHandler, hm, hb, hu, hg, pngExt_ne_nil] at h
    | ok l =>
      cases l with
      | nil => simp [setAvatarHandler, hm, hb, hu, hg, pngExt_ne_nil] at h
      | cons src rest =>
        cases hmk : osMkdirAll fs f.mkdirErr avatarDir with
        | error e => simp [setAvatarHandler, hm, hb, hu, hg, hmk, pngExt_ne_nil] at h
        | ok fs1 =>
          have hconv := setAvatarHandler_convert codec fs fs1 f r req src rest hm hb hu hg hmk
          rw [hconv] at h ⊢
          cases hcv : convertToPNG codec fs1 f src (Join avatarDir (req.FileName ++ pngExt)) with
          | mk res fs2 =>
            cases res with
            | some e => rw [hcv] at h; simp at h
            | none =>
              refine ⟨req, src, rest, fs1, fs2, hm, by first | exact hb | rfl, hu, hg,
                by first | exact hmk | rfl, hcv, ?_⟩
              rw [hcv] at h
              simp only at h ⊢
              cases hrm : osRemove fs2 f.removeErr src with
              | error e => rw [hrm] at h; simp at h
              | ok fs3 => rfl

/-- What a successful commit does to the filesystem, on every route: the
category directory is made, the destination is bound to a file and the
matched staged entry is removed. -/
theorem commit_effect {Img : Type} (codec : Codec Img) (ep : Endpoint) (fs : FS) (f : Faults)
    (r : CommitRequest) (req : setRequest) (hb : r.Body = .ok req)
    (h : (commitHandler codec ep fs f r).1.Success = true) :
    ∃ src rest fs1 out,
      Glob fs (Join uploadDir (req.FileUUID ++ ['*'])) = .ok (src :: rest) ∧
      osMkdirAll fs f.mkdirErr ep.dir = .ok fs1 ∧
      (commitHandler codec ep fs f r).2 =
        erase (store (store fs1 (Clean (committedPath ep req.FileName)) (Node.file []))
          (Clean (committedPath ep req.FileName)) (Node.file out)) (Clean src) := by
  cases ep with
  | setAvatar =>
    obtain ⟨req1, src, rest, fs1, fs2, _, hb1, _, hg, hmk, hcv, hrm⟩ :=
      setAvatarHandler_success codec fs f r h
    rw [hb] at hb1
    simp only [Except.ok.injEq] at hb1
    subst hb1
    obtain ⟨out, hout⟩ := convertToPNG_ok codec _ _ _ _ _ hcv
    refine ⟨src, rest, fs1, out, hg, hmk, ?_⟩
    have := osRemove_ok _ _ _ _ hrm
    rw [hout] at this
    exact this
  | setAnswer =>
    obtain ⟨req1, src, rest, fs1, _, hb1, _, hg, hmk, hmv⟩ :=
      setFileHandler_success answerDir fs f r h
    rw [hb] at hb1
    simp only [Except.ok.injEq] at hb1
    subst hb1
    rcases MoveFile_cases _ _ _ _ _ _ hmv with ⟨e, h1, _⟩ | ⟨e, h1, _⟩ | ⟨e, b, h1, _⟩ |
      ⟨e, c, h1, _⟩ | ⟨_, c, _, hfs⟩
    · simp at h1
    · simp at h1
    · simp at h1
    · simp at h1
    · exact ⟨src, rest, fs1, c, hg, hmk, hfs⟩
  | setTest =>
    obtain ⟨req1, src, rest, fs1, _, hb1, _, hg, hmk, hmv⟩ :=
      setFileHandler_success testDir fs f r h
    rw [hb] at hb1
    simp only [Except.ok.injEq] at hb1
    subst hb1
    rcases MoveFile_cases _ _ _ _ _ _ hmv with ⟨e, h1, _⟩ | ⟨e, h1, _⟩ | ⟨e, b, h1, _⟩ |
      ⟨e, c, h1, _⟩ | ⟨_, c, _, hfs⟩
    · simp at h1
    · simp at h1
    · simp at h1
    · simp at h1
    · exact ⟨src, rest, fs1, c, hg, hmk, hfs⟩

theorem stripPrefix_append (p n : Str) : stripPrefix p (p ++ n) = some n := by
  induction p with
  | nil => simp [stripPrefix]
  | cons c cs ih => simp [stripPrefix, ih]

theorem mem_of_lookup (fs : FS) (k : Str) (h : lookup fs k ≠ none) : ∃ n, (k, n) ∈ fs := by
  induction fs with
  | nil => simp [lookup] at h
  | cons e rest ih =>
    obtain ⟨q, m⟩ := e
    simp only [lookup] at h
    split at h
    · rename_i hq
      exact ⟨m, by simp [hq]⟩
    · obtain ⟨n, hn⟩ := ih h
      exact ⟨n, by simp [hn]⟩

theorem mem_stagedNames (fs : FS) (n : Str) (h : lookup fs (uploadDir ++ '/' :: n) ≠ none) :
    n ∈ stagedNames fs := by
  obtain ⟨node, hmem⟩ := mem_of_lookup fs _ h
  unfold stagedNames
  rw [List.mem_filterMap]
  refine ⟨_, hmem, ?_⟩
  have : uploadDir ++ '/' :: n = (uploadDir ++ ['/']) ++ n := by simp
  simp only [this, stripPrefix_append]

theorem not_upload_child (k n : Str) (h : ¬ uploadDir <+: k) : k ≠ uploadDir ++ '/' :: n :=
  fun h0 => h (h0 ▸ List.prefix_append _ _)

theorem Endpoint.dir_ne_nil (ep : Endpoint) : ep.dir ≠ [] := by
  cases ep <;> decide

theorem mkdirKeys_not_upload (ep : Endpoint) :
    ∀ e ∈ mkdirKeys none (splitSlash (Clean ep.dir)), ¬ uploadDir <+: e := by
  cases ep <;> decide

/-- Making a category directory changes no entry below the staging
directory. -/
theorem mkdir_category_upload (ep : Endpoint) (fs fs1 : FS) (fault : Option String)
    (h : osMkdirAll fs fault ep.dir = .ok fs1) (n : Str) :
    lookup fs1 (uploadDir ++ '/' :: n) = lookup fs (uploadDir ++ '/' :: n) := by
  rcases osMkdirAll_lookup fs fs1 fault _ h (uploadDir ++ '/' :: n) with h1 | ⟨_, _, h3⟩
  · exact h1
  · exact absurd (List.prefix_append _ _) (mkdirKeys_not_upload ep _ h3)

/-- A successful commit of a plain identifier that names at most one staged
entry, to a destination outside the staged names of the identifier, leaves no
staged entry under the identifier and a file at the destination. -/
theorem commit_consumes {Img : Type} (codec : Codec Img) (ep : Endpoint) (fs : FS) (f : Faults)
    (r : CommitRequest) (id name : Str) (hid : PlainId id)
    (hb : r.Body = .ok ⟨id, name⟩)
    (huniq : ∀ n m, id <+: n → id <+: m → lookup fs (uploadDir ++ '/' :: n) ≠ none →
      lookup fs (uploadDir ++ '/' :: m) ≠ none → n = m)
    (hdst : ∀ n, id <+: n → committedPath ep name ≠ uploadDir ++ '/' :: n)
    (hs : (commitHandler codec ep fs f r).1.Success = true) :
    (∀ n, id <+: n → lookup (commitHandler codec ep fs f r).2 (uploadDir ++ '/' :: n) = none) ∧
    ∃ b, nodeAt (commitHandler codec ep fs f r).2 (committedPath ep name)
      = some (Node.file b) := by
  obtain ⟨src, rest, fs1, out, hg, hmk, hfs⟩ := commit_effect codec ep fs f r _ hb hs
  simp only at hg hfs
  obtain ⟨l, hl, hall⟩ := Glob_plain fs id hid
  rw [hg] at hl
  simp only [Except.ok.injEq] at hl
  subst hl
  obtain ⟨n0, hsrc, hpre0, hlook0⟩ := hall src (by simp)
  have hsrcClean : Clean src = src :=
    Glob_clean fs _ _ (Join_clean _ _ (by decide)) hg src (by simp)
  have hdstClean : Clean (committedPath ep name) = committedPath ep name :=
    Join_clean _ _ ep.dir_ne_nil
  rw [hsrcClean, hdstClean] at hfs
  have hsd : src ≠ committedPath ep name := fun h0 => hdst n0 hpre0 (h0 ▸ hsrc)
  constructor
  · intro n hn
    rw [hfs, lookup_erase]
    split
    · rfl
    · rename_i hne
      rw [lookup_store, if_neg (hdst n hn), lookup_store, if_neg (hdst n hn),
        mkdir_category_upload ep fs fs1 _ hmk n]
      by_contra hcon
      have := huniq n n0 hn hpre0 hcon (hsrc ▸ hlook0)
      exact hne (by rw [hsrc, this])
  · refine ⟨out, ?_⟩
    unfold nodeAt
    rw [hdstClean, hfs, lookup_erase, if_neg hsd, lookup_store, if_pos rfl]

/-- C4 (amended): for an identifier without separator or pattern character
under which at most one staged entry exists, once a commit of it has
succeeded on some route, to a destination that is not itself a staged name of
the identifier, a second commit request with the same identifier, with any
name and faults and on any route, is answered success=false and leaves the
filesystem, and so the file of the first commit, exactly as it was. -/
theorem second_commit_fails {Img : Type} (codec : Codec Img) (ep1 ep2 : Endpoint) (fs : FS)
    (f1 f2 : Faults) (r1 r2 : CommitRequest) (id name1 name2 : Str) (hid : PlainId id)
    (hb1 : r1.Body = .ok ⟨id, name1⟩) (hb2 : r2.Body = .ok ⟨id, name2⟩)
    (huniq : ∀ n m, id <+: n → id <+: m → lookup fs (uploadDir ++ '/' :: n) ≠ none →
      lookup fs (uploadDir ++ '/' :: m) ≠ none → n = m)
    (hdst : ∀ n, id <+: n → committedPath ep1 name1 ≠ uploadDir ++ '/' :: n)
    (hs : (commitHandler codec ep1 fs f1 r1).1.Success = true) :
    (commitHandler codec ep2 (commitHandler codec ep1 fs f1 r1).2 f2 r2).1.Success = false ∧
    (commitHandler codec ep2 (commitHandler codec ep1 fs f1 r1).2 f2 r2).2
      = (commitHandler codec ep1 fs f1 r1).2 := by
  obtain ⟨hnone, _⟩ := commit_consumes codec ep1 fs f1 r1 id name1 hid hb1 huniq hdst hs
  generalize (commitHandler codec ep1 fs f1 r1).2 = fsA at hnone ⊢
  obtain ⟨l, hl, hall⟩ := Glob_plain fsA id hid
  have hnil : l = [] := by
    cases l with
    | nil => rfl
    | cons p ps =>
      obtain ⟨n, hp, hpre, hlook⟩ := hall p (by simp)
      rw [hp] at hlook
      exact absurd (hnone n hpre) hlook
  subst hnil
  by_cases hm : r2.Method = "POST"
  · cases ep2 <;>
      simp [commitHandler, setAvatarHandler, setFileHandler, hm, hb2, hid.1, hl, pngExt_ne_nil,
        txtExt_ne_nil]
  · cases ep2 <;> simp [commitHandler, setAvatarHandler, setFileHandler, hm]

/-- Two commits of the identifier `u2`, staged once in the example filesystem. -/
theorem second_commit_fails_witness :
    (commitHandler demoCodec Endpoint.setTest
        (commitHandler demoCodec Endpoint.setAnswer fsDemo noFaults (post "u2" "t1")).2
        noFaults (post "u2" "t1")).1.Success = false ∧
    (commitHandler demoCodec Endpoint.setTest
        (commitHandler demoCodec Endpoint.setAnswer fsDemo noFaults (post "u2" "t1")).2
        noFaults (post "u2" "t1")).2
      = (commitHandler demoCodec Endpoint.setAnswer fsDemo noFaults (post "u2" "t1")).2 :=
  second_commit_fails demoCodec Endpoint.setAnswer Endpoint.setTest fsDemo noFaults noFaults
    (post "u2" "t1") (post "u2" "t1") "u2".toList "t1".toList "t1".toList (by decide) rfl rfl
    (fun n m hn hm h1 h2 =>
      (by decide : ∀ n ∈ stagedNames fsDemo, ∀ m ∈ stagedNames fsDemo,
        "u2".toList <+: n → "u2".toList <+: m → n = m)
        n (mem_stagedNames fsDemo n h1) m (mem_stagedNames fsDemo m h2) hn hm)
    (fun n _ => not_upload_child _ n (by decide))
    (by decide)

/-- C4 as stated fails: two files are staged under names starting with the
identifier, the first commit consumes one and the second commit, with the same
identifier and name, succeeds on the other and overwrites the file of the
first. -/
theorem second_commit_succeeds_on_other_match :
    (setFileHandler answerDir fsDemo noFaults (post "u1" "x")).1 = ⟨true, ""⟩ ∧
    nodeAt (setFileHandler answerDir fsDemo noFaults (post "u1" "x")).2
      "files/answer/x.txt".toList = some (Node.file [3]) ∧
    (setFileHandler answerDir (setFileHandler answerDir fsDemo noFaults (post "u1" "x")).2
      noFaults (post "u1" "x")).1 = ⟨true, ""⟩ ∧
    nodeAt (setFileHandler answerDir (setFileHandler answerDir fsDemo noFaults (post "u1" "x")).2
      noFaults (post "u1" "x")).2 "files/answer/x.txt".toList = some (Node.file [1, 2]) := by
  decide

/-- An identifier with a path separator can make the second commit destroy
the output of the first although the pattern had a single match: the pattern
`files/an*` first matches the file `files/anx`, and after the commit it matches
the category directory the commit made, so the second commit truncates the
committed file before its copy fails. -/
theorem second_commit_truncates_after_directory_match :
    (setFileHandler answerDir fsStray noFaults (post "../an" "t")).1 = ⟨true, ""⟩ ∧
    nodeAt (setFileHandler answerDir fsStray noFaults (post "../an" "t")).2
      "files/answer/t.txt".toList = some (Node.file [1]) ∧
    (setFileHandler answerDir (setFileHandler answerDir fsStray noFaults (post "../an" "t")).2
      noFaults (post "../an" "t")).1.Success = false ∧
    nodeAt (setFileHandler answerDir (setFileHandler answerDir fsStray noFaults
      (post "../an" "t")).2 noFaults (post "../an" "t")).2
      "files/answer/t.txt".toList = some (Node.file []) := by
  decide

/-! ## Upload followed by commit -/

theorem matchesShape_chars (s : Str) :
    ∀ t, matchesShape s t = true → ∀ c ∈ s, c = '-' ∨ isHexDigit c = true := by
  induction s with
  | nil => intro _ _ c hc; simp at hc
  | cons d ds ih =>
    intro t h c hc
    cases t with
    | nil => simp [matchesShape] at h
    | cons u us =>
      simp only [matchesShape, Bool.and_eq_true] at h
      simp only [List.mem_cons] at hc
      rcases hc with rfl | hc
      · by_cases hu : u = '-'
        · rw [if_pos hu] at h
          left; simpa using h.1
        · rw [if_neg hu] at h
          right; exact h.1
      · exact ih us h.2 c hc

theorem matchesShape_length (s : Str) :
    ∀ t, matchesShape s t = true → s.length = t.length := by
  induction s with
  | nil =>
    intro t h
    cases t with
    | nil => rfl
    | cons u us => simp [matchesShape] at h
  | cons d ds ih =>
    intro t h
    cases t with
    | nil => simp [matchesShape] at h
    | cons u us =>
      simp only [matchesShape, Bool.and_eq_true] at h
      simp [ih us h.2]

theorem isUUIDString_length (id : Str) (h : isUUIDString id = true) : id.length = 36 := by
  have := matchesShape_length id _ h
  rw [this]; decide

theorem hex_plain (c : Char) (h : c = '-' ∨ isHexDigit c = true) : c ≠ '/' ∧ LitChar c := by
  refine ⟨?_, ?_, ?_, ?_, ?_⟩ <;>
  · intro hc
    subst hc
    revert h
    decide

theorem isUUIDString_plain (id : Str) (h : isUUIDString id = true) : PlainId id := by
  constructor
  · intro h0
    have := isUUIDString_length id h
    rw [h0] at this
    simp at this
  · intro c hc
    exact hex_plain c (matchesShape_chars id _ h c hc)

theorem extScan_no_slash (l : Str) : ∀ acc, '/' ∉ acc → '/' ∉ extScan l acc := by
  induction l with
  | nil => intro acc _; simp [extScan]
  | cons c cs ih =>
    intro acc hacc
    unfold extScan
    split
    · simp
    · rename_i hc
      split
      · rename_i hdot
        simp only [List.mem_cons, not_or]
        exact ⟨fun h => hc h.symm, hacc⟩
      · apply ih
        simp only [List.mem_cons, not_or]
        exact ⟨fun h => hc h.symm, hacc⟩

theorem Ext_no_slash (p : Str) : '/' ∉ Ext p := extScan_no_slash _ [] (by simp)

/-- The staged name of an upload is one proper path element, so the staged
path is the staging directory, a slash and that name. -/
theorem staged_path (id filename : Str) (h : isUUIDString id = true) :
    Join uploadDir (id ++ Ext filename) = uploadDir ++ '/' :: (id ++ Ext filename) := by
  have hlen := isUUIDString_length id h
  have hplain := isUUIDString_plain id h
  apply Join_upload_seg
  · intro h0
    have := congrArg List.length h0
    simp [hlen] at this
  · intro h0
    have := congrArg List.length h0
    simp [hlen] at this
    omega
  · intro h0
    have := congrArg List.length h0
    simp [hlen] at this
    omega
  · simp only [List.mem_append, not_or]
    exact ⟨fun hm => (hplain.2 _ hm).1 rfl, Ext_no_slash filename⟩

/-- What an accepted upload does: the staging directory is made and the staged
file is bound to the bytes that reached it, all of them unless the copy
failed. -/
theorem upload_ok (fs fsU : FS) (f : Faults) (id : Str) (u : UploadRequest)
    (resp : uploadResponse) (h : uploadHandler fs f id u = (.ok resp, fsU)) :
    ∃ filename content fs1 written,
      u.File = .ok (filename, content) ∧ osMkdirAll fs f.mkdirErr uploadDir = .ok fs1 ∧
      resp = ⟨id⟩ ∧ (f.copyErr = none → written = content) ∧
      fsU = store (store fs1 (Clean (Join uploadDir (id ++ Ext filename))) (Node.file []))
        (Clean (Join uploadDir (id ++ Ext filename))) (Node.file written) := by
  unfold uploadHandler at h
  split at h
  · simp at h
  · split at h
    · simp at h
    · split at h
      · simp at h
      · rename_i filename content hfile
        simp only at h
        split at h
        · simp at h
        · rename_i fs1 hmk
          split at h
          · simp at h
          · rename_i fs2 hcreate
            have hc := osCreate_ok _ _ _ _ hcreate
            subst hc
            simp only [Prod.mk.injEq, UploadReply.ok.injEq] at h
            obtain ⟨h1, h2⟩ := h
            unfold writeBytes at h2
            split at h2
            · rename_i hcopy
              exact ⟨filename, content, fs1, content, hfile, hmk, h1.symm, fun _ => rfl,
                h2.symm⟩
            · rename_i n e hcopy
              refine ⟨filename, content, fs1, content.take n, hfile, hmk, h1.symm, ?_, h2.symm⟩
              intro h0
              rw [h0] at hcopy
              simp at hcopy

/-- C2 (amended): after an upload staged under a fresh identifier, a
successful commit of that identifier under a name whose committed path is not
itself a staged name of the identifier leaves a file at the committed path and
no entry of the staging directory whose name starts with the identifier. -/
theorem upload_then_commit {Img : Type} (codec : Codec Img) (ep : Endpoint) (fs fsU : FS)
    (fU fC : Faults) (id name : Str) (u : UploadRequest) (r : CommitRequest)
    (hid : isUUIDString id = true)
    (hfresh : ∀ n, id <+: n → lookup fs (uploadDir ++ '/' :: n) = none)
    (hup : uploadHandler fs fU id u = (.ok ⟨id⟩, fsU))
    (hb : r.Body = .ok ⟨id, name⟩)
    (hs : (commitHandler codec ep fsU fC r).1.Success = true)
    (hdst : ∀ n, id <+: n → committedPath ep name ≠ uploadDir ++ '/' :: n) :
    (∃ b, nodeAt (commitHandler codec ep fsU fC r).2 (committedPath ep name)
      = some (Node.file b)) ∧
    ∀ n, id <+: n → lookup (commitHandler codec ep fsU fC r).2 (uploadDir ++ '/' :: n)
      = none := by
  have hplain := isUUIDString_plain id hid
  obtain ⟨filename, content, fs1, written, _, hmk, _, _, hfsU⟩ := upload_ok fs fsU fU id u _ hup
  have hK : Clean (Join uploadDir (id ++ Ext filename))
      = uploadDir ++ '/' :: (id ++ Ext filename) := by
    rw [Join_clean _ _ (by decide), staged_path id filename hid]
  rw [hK] at hfsU
  have hkeys : mkdirKeys none (splitSlash (Clean uploadDir)) = ["files".toList, uploadDir] := by
    decide
  have hstaged : ∀ n, id <+: n → lookup fsU (uploadDir ++ '/' :: n) ≠ none →
      n = id ++ Ext filename := by
    intro n hn hlook
    rw [hfsU, lookup_store] at hlook
    split at hlook
    · rename_i heq
      have := List.append_cancel_left heq
      simp only [List.cons.injEq, true_and] at this
      exact this.symm
    · rw [lookup_store] at hlook
      rename_i hne
      rw [if_neg hne] at hlook
      rcases osMkdirAll_lookup fs fs1 _ _ hmk (uploadDir ++ '/' :: n) with h1 | ⟨_, _, h3⟩
      · rw [h1, hfresh n hn] at hlook
        exact absurd rfl hlook
      · rw [hkeys] at h3
        simp only [List.mem_cons, List.mem_singleton, List.not_mem_nil, or_false] at h3
        have hlen : uploadDir.length = 12 := by decide
        rcases h3 with h3 | h3
        · have := congrArg List.length h3
          simp [hlen] at this
          omega
        · have := congrArg List.length h3
          simp at this
  have huniq : ∀ n m, id <+: n → id <+: m → lookup fsU (uploadDir ++ '/' :: n) ≠ none →
      lookup fsU (uploadDir ++ '/' :: m) ≠ none → n = m := by
    intro n m hn hm h1 h2
    rw [hstaged n hn h1, hstaged m hm h2]
  obtain ⟨h1, h2⟩ := commit_consumes codec ep fsU fC r id name hplain hb huniq hdst hs
  exact ⟨h2, h1⟩

/-- The example upload followed by its commit as test `t1`. -/
theorem upload_then_commit_witness :
    (∃ b, nodeAt (commitHandler demoCodec Endpoint.setTest fsUploaded noFaults
        (postDemo "t1".toList)).2 (committedPath Endpoint.setTest "t1".toList)
          = some (Node.file b)) ∧
    ∀ n, uuidDemo <+: n →
      lookup (commitHandler demoCodec Endpoint.setTest fsUploaded noFaults
        (postDemo "t1".toList)).2 (uploadDir ++ '/' :: n) = none :=
  upload_then_commit demoCodec Endpoint.setTest [] fsUploaded noFaults noFaults uuidDemo
    "t1".toList uploadDemoRequest (postDemo "t1".toList) (by decide) (fun _ _ => rfl)
    (by decide) rfl (by decide) (fun n _ => not_upload_child _ n (by decide))

/-- C2 as stated fails: after an upload under a fresh identifier, a commit
whose name leads back to the staged file succeeds and leaves no file at the
committed path, and a commit whose name leads to another name in the staging
directory succeeds and leaves a staged name starting with the identifier. -/
theorem commit_back_into_staging :
    (uploadHandler [] noFaults uuidDemo uploadDemoRequest).1 = .ok ⟨uuidDemo⟩ ∧
    (commitHandler demoCodec Endpoint.setTest fsUploaded noFaults
      (postDemo ("../upload/".toList ++ uuidDemo))).1 = ⟨true, ""⟩ ∧
    nodeAt (commitHandler demoCodec Endpoint.setTest fsUploaded noFaults
      (postDemo ("../upload/".toList ++ uuidDemo))).2
      (committedPath Endpoint.setTest ("../upload/".toList ++ uuidDemo)) = none ∧
    (commitHandler demoCodec Endpoint.setTest fsUploaded noFaults
      (postDemo ("../upload/".toList ++ uuidDemo ++ "-2".toList))).1 = ⟨true, ""⟩ ∧
    lookup (commitHandler demoCodec Endpoint.setTest fsUploaded noFaults
      (postDemo ("../upload/".toList ++ uuidDemo ++ "-2".toList))).2
      (uploadDir ++ '/' :: (uuidDemo ++ "-2.txt".toList)) = some (Node.file [1, 2, 3]) := by
  decide

/-- C9: an upload during which the copy stops after the first byte is answered
like any accepted upload, with the identifier, and the staged file holds one
byte of the three uploaded: the handler does not look at the result of
`io.Copy`. -/
theorem upload_ignores_copy_failure :
    (uploadHandler [] diskFull uuidDemo uploadDemoRequest).1 = .ok ⟨uuidDemo⟩ ∧
    nodeAt (uploadHandler [] diskFull uuidDemo uploadDemoRequest).2
      (uploadDir ++ '/' :: (uuidDemo ++ ".txt".toList)) = some (Node.file [1]) := by
  decide

/-- The part of C9 that holds: an accepted upload during which the copy does
not fail stages the uploaded bytes unchanged at the staging directory, a slash,
the identifier and the extension of the uploaded file name, and answers with
the identifier alone. -/
theorem upload_stages (fs fsU : FS) (f : Faults) (id : Str) (u : UploadRequest)
    (resp : uploadResponse) (hid : isUUIDString id = true) (hcopy : f.copyErr = none)
    (h : uploadHandler fs f id u = (.ok resp, fsU)) :
    ∃ filename content, u.File = .ok (filename, content) ∧ resp = ⟨id⟩ ∧
      nodeAt fsU (uploadDir ++ '/' :: (id ++ Ext filename)) = some (Node.file content) := by
  obtain ⟨filename, content, fs1, written, hfile, _, hresp, hw, hfsU⟩ :=
    upload_ok fs fsU f id u resp h
  refine ⟨filename, content, hfile, hresp, ?_⟩
  have hK : Clean (Join uploadDir (id ++ Ext filename))
      = uploadDir ++ '/' :: (id ++ Ext filename) := by
    rw [Join_clean _ _ (by decide), staged_path id filename hid]
  have hK2 : Clean (uploadDir ++ '/' :: (id ++ Ext filename))
      = uploadDir ++ '/' :: (id ++ Ext filename) := by
    rw [← staged_path id filename hid, Join_clean _ _ (by decide)]
  rw [hK] at hfsU
  rw [hfsU, nodeAt_store, hK2, if_pos rfl, hw hcopy]

/-! ## The fuel of `Match` always suffices -/

theorem getEsc_length (chunk : Str) (r : Char) (rest : Str)
    (h : getEsc chunk = .ok (r, rest)) : rest.length < chunk.length := by
  unfold getEsc at h
  split at h
  · simp at h
  · rename_i c cs
    split at h
    · simp at h
    · split at h
      · simp at h
      · rename_i r0 nchunk hbody
        split at h
        · simp at h
        · simp only [Except.ok.injEq, Prod.mk.injEq] at h
          obtain ⟨_, h2⟩ := h
          subst h2
          have hlen := congrArg List.length hbody
          split at hlen
          · simp only [List.length_cons] at hlen ⊢
            omega
          · simp only [List.length_cons] at hlen ⊢
            omega

theorem classLoop_fuel (n : Nat) :
    ∀ (chunk : Str) (r : Char) (m : Bool) (k f1 f2 : Nat), chunk.length ≤ n →
      chunk.length < f1 → chunk.length < f2 →
      classLoop f1 chunk r m k = classLoop f2 chunk r m k := by
  induction n with
  | zero =>
    intro chunk r m k f1 f2 hn h1 h2
    have : chunk = [] := List.length_eq_zero.mp (Nat.le_zero.mp hn)
    subst this
    cases f1 <;> cases f2 <;> simp [classLoop] at *
  | succ n ih =>
    intro chunk r m k f1 f2 hn h1 h2
    cases f1 with
    | zero => simp at h1
    | succ f1 =>
      cases f2 with
      | zero => simp at h2
      | succ f2 =>
        cases chunk with
        | nil => simp [classLoop]
        | cons c cs =>
          simp only [List.length_cons] at hn h1 h2
          simp only [classLoop]
          split
          · rfl
          · split
            · rfl
            · rename_i lo chunk1 hesc
              have hl1 := getEsc_length _ _ _ hesc
              simp only [List.length_cons] at hl1
              cases chunk1 with
              | nil => rfl
              | cons d ds =>
                simp only [List.length_cons] at hl1
                simp only
                split
                · split
                  · rfl
                  · rename_i hi chunk2 hesc2
                    have hl2 := getEsc_length _ _ _ hesc2
                    exact ih chunk2 r _ _ f1 f2 (by omega) (by omega) (by omega)
                · exact ih (d :: ds) r _ _ f1 f2 (by simp; omega) (by simp; omega)
                    (by simp; omega)

theorem classLoop_length (f : Nat) :
    ∀ (chunk : Str) (r : Char) (m : Bool) (k : Nat) (b : Bool) (rest : Str),
      classLoop f chunk r m k = .ok (b, rest) → rest.length < chunk.length := by
  induction f with
  | zero => intro chunk r m k b rest h; simp [classLoop] at h
  | succ f ih =>
    intro chunk r m k b rest h
    cases chunk with
    | nil => simp [classLoop] at h
    | cons c cs =>
      simp only [classLoop] at h
      split at h
      · simp only [Except.ok.injEq, Prod.mk.injEq] at h
        rw [← h.2]; simp
      · split at h
        · simp at h
        · rename_i lo chunk1 hesc
          have hl1 := getEsc_length _ _ _ hesc
          cases chunk1 with
          | nil => simp at h
          | cons d ds =>
            simp only at h
            simp only [List.length_cons] at hl1
            split at h
            · split at h
              · simp at h
              · rename_i hi chunk2 hesc2
                have hl2 := getEsc_length _ _ _ hesc2
                have := ih _ _ _ _ _ _ h
                simp only [List.length_cons]
                omega
            · have := ih _ _ _ _ _ _ h
              simp only [List.length_cons] at this ⊢
              omega

theorem matchChunkLoop_fuel (n : Nat) :
    ∀ (chunk s : Str) (failed : Bool) (f1 f2 : Nat), chunk.length ≤ n →
      chunk.length < f1 → chunk.length < f2 →
      matchChunkLoop f1 chunk s failed = matchChunkLoop f2 chunk s failed := by
  induction n with
  | zero =>
    intro chunk s failed f1 f2 hn h1 h2
    have : chunk = [] := List.length_eq_zero.mp (Nat.le_zero.mp hn)
    subst this
    cases f1 <;> cases f2 <;> simp [matchChunkLoop] at *
  | succ n ih =>
    intro chunk s failed f1 f2 hn h1 h2
    cases f1 with
    | zero => simp at h1
    | succ f1 =>
      cases f2 with
      | zero => simp at h2
      | succ f2 =>
        cases chunk with
        | nil => simp [matchChunkLoop]
        | cons c cs =>
          simp only [List.length_cons] at hn h1 h2
          simp only [matchChunkLoop]
          split
          · split
            · rfl
            · rename_i m cs2 hclass
              have hl := classLoop_length _ _ _ _ _ _ _ hclass
              have hcs1 : (if decide (cs.head? = some '^') = true then cs.tail else cs).length
                  ≤ cs.length := by
                split
                · simp
                · exact Nat.le_refl _
              exact ih cs2 _ _ f1 f2 (by omega) (by omega) (by omega)
          · split
            · split
              · exact ih cs _ _ f1 f2 (by omega) (by omega) (by omega)
              · exact ih cs _ _ f1 f2 (by omega) (by omega) (by omega)
            · split
              · split
                · rfl
                · rename_i d ds
                  simp only [List.length_cons] at hn h1 h2
                  split
                  · exact ih ds _ _ f1 f2 (by omega) (by omega) (by omega)
                  · exact ih ds _ _ f1 f2 (by omega) (by omega) (by omega)
              · split
                · exact ih cs _ _ f1 f2 (by omega) (by omega) (by omega)
                · exact ih cs _ _ f1 f2 (by omega) (by omega) (by omega)

theorem scanLoop_length_le (n : Nat) :
    ∀ (q : Str) (b : Bool), q.length ≤ n → (scanLoop b q).2.length ≤ q.length := by
  induction n with
  | zero =>
    intro q b hn
    have : q = [] := List.length_eq_zero.mp (Nat.le_zero.mp hn)
    subst this
    simp [scanLoop]
  | succ n ih =>
    intro q b hn
    cases q with
    | nil => simp [scanLoop]
    | cons c cs =>
      simp only [List.length_cons] at hn
      unfold scanLoop
      split
      · split
        · simp
        · rename_i d ds
          simp only [List.length_cons] at hn ⊢
          have := ih ds b (by omega)
          omega
      · split
        · have := ih cs true (by omega)
          simp only [List.length_cons]
          omega
        · split
          · have := ih cs false (by omega)
            simp only [List.length_cons]
            omega
          · split
            · split
              · have := ih cs b (by omega)
                simp only [List.length_cons]
                omega
              · simp
            · have := ih cs b (by omega)
              simp only [List.length_cons]
              omega

theorem scanLoop_length_lt (c : Char) (cs : Str) (hc : c ≠ '*') :
    (scanLoop false (c :: cs)).2.length < (c :: cs).length := by
  have hle := fun (q : Str) (b : Bool) => scanLoop_length_le q.length q b (Nat.le_refl _)
  unfold scanLoop
  split
  · split
    · simp
    · rename_i d ds
      have := hle ds false
      simp only [List.length_cons]
      omega
  · split
    · have := hle cs true
      simp only [List.length_cons]
      omega
    · split
      · have := hle cs false
        simp only [List.length_cons]
        omega
      · have := hle cs false
        simp only [List.length_cons]
        omega

theorem dropStars_length (p : Str) :
    (dropStars p).2.length ≤ p.length ∧
      ((dropStars p).1 = true → (dropStars p).2.length < p.length) ∧
      ((dropStars p).1 = false → (dropStars p).2 = p) ∧
      (∀ c cs, (dropStars p).2 = c :: cs → c ≠ '*') := by
  induction p with
  | nil => simp [dropStars]
  | cons c cs ih =>
    unfold dropStars
    split
    · obtain ⟨h1, _, _, h4⟩ := ih
      simp only [List.length_cons]
      refine ⟨by omega, fun _ => by omega, fun h => by simp at h, h4⟩
    · rename_i hc
      refine ⟨Nat.le_refl _, fun h => by simp at h, fun _ => rfl, ?_⟩
      intro d ds h
      simp only [List.cons.injEq] at h
      rw [← h.1]; exact hc

/-- Every chunk that `scanChunk` takes off a non-empty pattern shortens it. -/
theorem scanChunk_length (p : Str) (hp : p ≠ []) : (scanChunk p).2.2.length < p.length := by
  obtain ⟨h1, h2, h3, h4⟩ := dropStars_length p
  unfold scanChunk
  simp only
  cases hstar : (dropStars p).1 with
  | true =>
    have := h2 hstar
    have := scanLoop_length_le _ (dropStars p).2 false (Nat.le_refl _)
    omega
  | false =>
    have hq := h3 hstar
    cases p with
    | nil => exact absurd rfl hp
    | cons c cs =>
      rw [hq]
      exact scanLoop_length_lt c cs (h4 c cs hq)

theorem checkRest_fuel (n : Nat) :
    ∀ (p : Str) (f1 f2 : Nat), p.length ≤ n → p.length < f1 → p.length < f2 →
      checkRest f1 p = checkRest f2 p := by
  induction n with
  | zero =>
    intro p f1 f2 hn h1 h2
    have : p = [] := List.length_eq_zero.mp (Nat.le_zero.mp hn)
    subst this
    cases f1 <;> cases f2 <;> simp [checkRest] at *
  | succ n ih =>
    intro p f1 f2 hn h1 h2
    cases f1 with
    | zero => simp at h1
    | succ f1 =>
      cases f2 with
      | zero => simp at h2
      | succ f2 =>
        simp only [checkRest]
        split
        · rfl
        · rename_i hp
          have hl := scanChunk_length p hp
          split
          · rfl
          · exact ih _ f1 f2 (by omega) (by omega) (by omega)

theorem matchLoop_fuel (n : Nat) :
    ∀ (p s : Str) (f1 f2 : Nat), p.length ≤ n → p.length < f1 → p.length < f2 →
      matchLoop f1 p s = matchLoop f2 p s := by
  induction n with
  | zero =>
    intro p s f1 f2 hn h1 h2
    have : p = [] := List.length_eq_zero.mp (Nat.le_zero.mp hn)
    subst this
    cases f1 <;> cases f2 <;> simp [matchLoop] at *
  | succ n ih =>
    intro p s f1 f2 hn h1 h2
    cases f1 with
    | zero => simp at h1
    | succ f1 =>
      cases f2 with
      | zero => simp at h2
      | succ f2 =>
        simp only [matchLoop]
        split
        · rfl
        · rename_i hp
          have hl := scanChunk_length p hp
          split
          · rfl
          · split
            · rfl
            · split
              · exact ih _ _ f1 f2 (by omega) (by omega) (by omega)
              · split
                · split
                  · rfl
                  · exact ih _ _ f1 f2 (by omega) (by omega) (by omega)
                  · rfl
                · rfl

/-- The loop of `Match` never runs out of fuel: any fuel above the length of
the pattern gives the result of `Match`. -/
theorem Match_fuel (p s : Str) (fuel : Nat) (h : p.length < fuel) :
    matchLoop fuel p s = Match p s :=
  matchLoop_fuel p.length p s fuel (p.length + 1) (Nat.le_refl _) h (Nat.lt_succ_self _)

/-- The loop of `matchChunk` never runs out of fuel. -/
theorem matchChunk_fuel (chunk s : Str) (fuel : Nat) (h : chunk.length < fuel) :
    matchChunkLoop fuel chunk s false = matchChunk chunk s :=
  matchChunkLoop_fuel chunk.length chunk s false fuel (chunk.length + 1) (Nat.le_refl _) h
    (Nat.lt_succ_self _)

/-- A first commit whose name leads into the staging directory, to a name that
starts with the identifier, puts its output where the pattern of the
identifier finds it, so the second commit of the identifier succeeds and moves
the output of the first away. -/
theorem second_commit_takes_first_output :
    (commitHandler demoCodec Endpoint.setTest fsUploaded noFaults
      (postDemo ("../upload/".toList ++ uuidDemo ++ "-2".toList))).1 = ⟨true, ""⟩ ∧
    (commitHandler demoCodec Endpoint.setTest
      (commitHandler demoCodec Endpoint.setTest fsUploaded noFaults
        (postDemo ("../upload/".toList ++ uuidDemo ++ "-2".toList))).2
      noFaults (postDemo "t".toList)).1 = ⟨true, ""⟩ ∧
    lookup (commitHandler demoCodec Endpoint.setTest
      (commitHandler demoCodec Endpoint.setTest fsUploaded noFaults
        (postDemo ("../upload/".toList ++ uuidDemo ++ "-2".toList))).2
      noFaults (postDemo "t".toList)).2
      (uploadDir ++ '/' :: (uuidDemo ++ "-2.txt".toList)) = none := by
  decide

end FileService
